import Mathlib

/-!
Verification of the sentra policy-decision gateway against its
specification.  The definitions below are a shallow embedding of the
relevant Rust sources (src/lib.rs, src/util.rs, src/plugins/*.rs):
strings are lists of Unicode scalar values, effects (clocks, the HTTP
client, the regex engine used for user-supplied policy patterns) are
explicit oracle parameters, and fallible operations return Option.
-/

set_option maxHeartbeats 1000000
set_option maxRecDepth 8000

namespace Sentra

/-- Character-list model of a Rust string slice.  The source occasionally
indexes by bytes; at every such place the byte index is a character
boundary and the byte-level test agrees with the character-level test
(noted at each definition), so the character model is exact there. -/
abbrev Str := List Char

/-- ASCII lower-casing of one character.  Used to model case folding at
the places where the folded text is ASCII (regex matches of ASCII-only
patterns, ASCII-case-insensitive comparisons). -/
def asciiLowerChar (c : Char) : Char :=
  if 'A' ≤ c ∧ c ≤ 'Z' then Char.ofNat (c.toNat + 32) else c

/-- ASCII lower-casing of a string. -/
def asciiLower (s : Str) : Str := s.map asciiLowerChar

/-- Model of byte-wise `eq_ignore_ascii_case` on two ASCII slices. -/
def eqIgnoreAsciiCase (a b : Str) : Bool := asciiLower a == asciiLower b

/-- The Unicode White_Space property, the set used by Rust's
`char::is_whitespace` (and by `str::trim`). -/
def isRustWhitespace (c : Char) : Bool :=
  ([0x9, 0xA, 0xB, 0xC, 0xD, 0x20, 0x85, 0xA0, 0x1680, 0x2028, 0x2029,
    0x202F, 0x205F, 0x3000] : List Nat).contains c.toNat
  || decide (0x2000 ≤ c.toNat ∧ c.toNat ≤ 0x200A)

/-- Model of Rust `str::trim`: drop Unicode whitespace from both ends. -/
def trimStr (s : Str) : Str :=
  ((s.dropWhile isRustWhitespace).reverse.dropWhile isRustWhitespace).reverse

/-- Model of Rust `str::contains(pat)`: some position of `hay` starts an
occurrence of `pat`. -/
def containsStr (hay pat : Str) : Bool :=
  (List.range (hay.length + 1)).any fun i => pat.isPrefixOf (hay.drop i)

/-- An occurrence of `pat` starts at position `i` of `hay`. -/
def occursAt (hay pat : Str) (i : Nat) : Bool :=
  pat.isPrefixOf (hay.drop i)

/-- Fuel-driven scan used to model `str::find` from a start offset; the
fuel is an upper bound on the number of candidate positions left. -/
def findFromAux (text pat : Str) : Nat → Nat → Option Nat
  | _, 0 => none
  | s, fuel + 1 =>
    if text.length < s then none
    else if pat.isPrefixOf (text.drop s) then some s
    else findFromAux text pat (s + 1) fuel

/-- Model of Rust `text[s..].find(pat)` reported as an absolute position:
the least `i ≥ s` at which `pat` occurs in `text` (byte positions in the
source are character positions here; occurrences of a well-formed string
inside well-formed UTF-8 always start and end on character boundaries). -/
def findFrom (text pat : Str) (s : Nat) : Option Nat :=
  findFromAux text pat s (text.length + 1 - s)

theorem findFromAux_some_spec (text pat : Str) :
    ∀ fuel s i, findFromAux text pat s fuel = some i →
      s ≤ i ∧ pat.isPrefixOf (text.drop i) = true ∧
        ∀ k, s ≤ k → k < i → pat.isPrefixOf (text.drop k) = false := by
  intro fuel
  induction fuel with
  | zero =>
    intro s i h
    exact absurd h (by simp [findFromAux])
  | succ n ih =>
    intro s i h
    rw [findFromAux] at h
    by_cases h1 : text.length < s
    · rw [if_pos h1] at h
      exact absurd h (by simp)
    rw [if_neg h1] at h
    by_cases h2 : pat.isPrefixOf (text.drop s) = true
    · rw [if_pos h2] at h
      injection h with h
      subst h
      exact ⟨le_refl _, h2, fun k hk1 hk2 => absurd hk2 (by omega)⟩
    rw [if_neg h2] at h
    obtain ⟨ha, hb, hc⟩ := ih (s + 1) i h
    refine ⟨by omega, hb, fun k hk1 hk2 => ?_⟩
    rcases Nat.eq_or_lt_of_le hk1 with hk | hk
    · subst hk
      exact Bool.eq_false_iff.mpr h2
    · exact hc k (by omega) hk2

theorem findFromAux_none_spec (text pat : Str) :
    ∀ fuel s, text.length + 1 - s ≤ fuel → findFromAux text pat s fuel = none →
      ∀ k, s ≤ k → k ≤ text.length → pat.isPrefixOf (text.drop k) = false := by
  intro fuel
  induction fuel with
  | zero =>
    intro s hle h k hk1 hk2
    omega
  | succ n ih =>
    intro s hle h k hk1 hk2
    rw [findFromAux] at h
    by_cases h1 : text.length < s
    · omega
    rw [if_neg h1] at h
    by_cases h2 : pat.isPrefixOf (text.drop s) = true
    · rw [if_pos h2] at h
      exact absurd h (by simp)
    rw [if_neg h2] at h
    rcases Nat.eq_or_lt_of_le hk1 with hk | hk
    · subst hk
      exact Bool.eq_false_iff.mpr h2
    · exact ih (s + 1) (by omega) h k (by omega) hk2

theorem findFrom_some_spec (text pat : Str) (s i : Nat)
    (h : findFrom text pat s = some i) :
    s ≤ i ∧ pat.isPrefixOf (text.drop i) = true ∧
      ∀ k, s ≤ k → k < i → pat.isPrefixOf (text.drop k) = false :=
  findFromAux_some_spec text pat _ s i h

theorem findFrom_none_spec (text pat : Str) (s : Nat)
    (h : findFrom text pat s = none) :
    ∀ k, s ≤ k → k ≤ text.length → pat.isPrefixOf (text.drop k) = false :=
  findFromAux_none_spec text pat _ s (le_refl _) h

theorem prefix_append_iff_of_le {pat a : Str} (b : Str)
    (h : pat.length ≤ a.length) : pat <+: a ++ b ↔ pat <+: a := by
  constructor
  · intro hp
    rw [List.prefix_iff_eq_take] at hp ⊢
    rwa [List.take_append_of_le_length h] at hp
  · intro hp
    exact hp.trans (List.prefix_append a b)

theorem append_short_left_prefix {pat a : Str} (b : Str)
    (hp : pat <+: a ++ b) (h : a.length < pat.length) : a <+: pat := by
  rw [List.prefix_iff_eq_take] at hp ⊢
  rw [hp, List.take_take, min_eq_left (le_of_lt h), List.take_left]

/-- Fuel-driven worker for `replaceAll`; the fuel bounds the number of
positions still to inspect (each step consumes at least one character of
the subject when the pattern is non-empty). -/
def replaceAllAux (pat r : Str) : Str → Nat → Str
  | xs, 0 => xs
  | [], _ + 1 => []
  | x :: tl, fuel + 1 =>
    if pat ≠ [] ∧ pat.isPrefixOf (x :: tl) = true then
      r ++ replaceAllAux pat r ((x :: tl).drop pat.length) fuel
    else
      x :: replaceAllAux pat r tl fuel

/-- Model of Rust `str::replace(pat, r)`: replace every non-overlapping
occurrence of `pat`, scanning left to right, without rescanning the
replacement text.  (Rust's behaviour for an empty pattern — inserting `r`
between all characters — is not modelled; every pattern the source passes
to `replace` is a non-empty literal.) -/
def replaceAll (xs pat r : Str) : Str :=
  replaceAllAux pat r xs xs.length

theorem replaceAllAux_congr_fuel (pat r : Str) (hpat : pat ≠ []) :
    ∀ fuel fuel2 xs, xs.length ≤ fuel → xs.length ≤ fuel2 →
      replaceAllAux pat r xs fuel = replaceAllAux pat r xs fuel2 := by
  intro fuel
  induction fuel with
  | zero =>
    intro fuel2 xs h1 _
    have : xs = [] := List.length_eq_zero.mp (by omega)
    subst this
    cases fuel2 <;> rfl
  | succ n ih =>
    intro fuel2 xs h1 h2
    match xs, fuel2 with
    | [], f2 => cases f2 <;> rfl
    | x :: tl, 0 => simp at h2
    | x :: tl, f2 + 1 =>
      rw [replaceAllAux, replaceAllAux]
      by_cases hc : pat ≠ [] ∧ pat.isPrefixOf (x :: tl) = true
      · rw [if_pos hc, if_pos hc]
        have hlen : pat.length ≤ (x :: tl).length :=
          (List.isPrefixOf_iff_prefix.mp hc.2).length_le
        have hpos : 0 < pat.length := List.length_pos.mpr hpat
        have hd : ((x :: tl).drop pat.length).length ≤ n := by
          simp only [List.length_drop]
          simp only [List.length_cons] at h1 ⊢
          omega
        have hd2 : ((x :: tl).drop pat.length).length ≤ f2 := by
          simp only [List.length_drop]
          simp only [List.length_cons] at h2 ⊢
          omega
        rw [ih f2 _ hd hd2]
      · rw [if_neg hc, if_neg hc]
        have ht : tl.length ≤ n := by
          simp only [List.length_cons] at h1
          omega
        have ht2 : tl.length ≤ f2 := by
          simp only [List.length_cons] at h2
          omega
        rw [ih f2 tl ht ht2]

/-- No suffix of `a` that is shorter than `pat` is a prefix of `pat`:
occurrences of `pat` in `a ++ b` therefore cannot straddle the boundary. -/
def cleanSplit (pat a : Str) : Prop :=
  ∀ p, p < a.length → a.length - p < pat.length →
    (a.drop p).isPrefixOf pat = false

instance instDecidableCleanSplit (pat a : Str) : Decidable (cleanSplit pat a) := by
  unfold cleanSplit
  exact Nat.decidableBallLT _ _

theorem cleanSplit_drop {pat a : Str} (h : cleanSplit pat a) (m : Nat) :
    cleanSplit pat (a.drop m) := by
  intro p hp hlen
  rw [List.drop_drop]
  have := h (m + p) (by simp [List.length_drop] at hp; omega)
    (by simp [List.length_drop] at hlen ⊢; omega)
  exact this

theorem cleanSplit_append {pat : Str} {a b : Str}
    (ha : cleanSplit pat a) (hb : cleanSplit pat b) : cleanSplit pat (a ++ b) := by
  intro p hp hlen
  rw [List.length_append] at hp hlen
  by_cases hpa : p < a.length
  · rw [List.drop_append_of_le_length (le_of_lt hpa)]
    have hfalse := ha p hpa (by omega)
    apply Bool.eq_false_iff.mpr
    intro hcontra
    have hpre : (a.drop p).isPrefixOf pat = true :=
      List.isPrefixOf_iff_prefix.mpr
        ((List.prefix_append (a.drop p) b).trans
          (List.isPrefixOf_iff_prefix.mp hcontra))
    rw [hpre] at hfalse
    exact Bool.noConfusion hfalse
  · have hi : p = a.length + (p - a.length) := by omega
    rw [hi, List.drop_append]
    exact hb (p - a.length) (by omega) (by omega)

/-- The pattern occurs nowhere in `a` (at no position, including the end). -/
def noOccur (pat a : Str) : Prop :=
  ∀ p, p < a.length + 1 → pat.isPrefixOf (a.drop p) = false

instance instDecidableNoOccur (pat a : Str) : Decidable (noOccur pat a) := by
  unfold noOccur
  exact Nat.decidableBallLT _ _

theorem replaceAll_append_of_cleanSplit (pat r : Str) (hpat : pat ≠ []) :
    ∀ n a b, a.length ≤ n → cleanSplit pat a →
      replaceAll (a ++ b) pat r = replaceAll a pat r ++ replaceAll b pat r := by
  intro n
  induction n with
  | zero =>
    intro a b hlen _
    have : a = [] := List.length_eq_zero.mp (by omega)
    subst this
    simp [replaceAll, replaceAllAux]
  | succ n ih =>
    intro a b hlen hclean
    match a with
    | [] => simp [replaceAll, replaceAllAux]
    | x :: tl =>
      have hxb : (x :: tl) ++ b = x :: (tl ++ b) := rfl
      by_cases hp : pat.isPrefixOf (x :: tl) = true
      · -- the pattern matches at the head of `a`
        have hplen : pat.length ≤ (x :: tl).length :=
          (List.isPrefixOf_iff_prefix.mp hp).length_le
        have hppos : 0 < pat.length := List.length_pos.mpr hpat
        have hpb : pat.isPrefixOf (x :: (tl ++ b)) = true := by
          rw [← hxb]
          exact List.isPrefixOf_iff_prefix.mpr
            ((List.isPrefixOf_iff_prefix.mp hp).trans (List.prefix_append _ b))
        have hdropeq : ((x :: tl) ++ b).drop pat.length =
            (x :: tl).drop pat.length ++ b :=
          List.drop_append_of_le_length hplen
        rw [replaceAll, hxb, List.length_cons, replaceAllAux,
          if_pos ⟨hpat, hpb⟩]
        rw [replaceAll, List.length_cons, replaceAllAux, if_pos ⟨hpat, hp⟩]
        have e1 : replaceAllAux pat r ((x :: (tl ++ b)).drop pat.length)
            (tl ++ b).length =
            replaceAll ((x :: tl).drop pat.length ++ b) pat r := by
          rw [replaceAll, ← hxb, hdropeq]
          apply replaceAllAux_congr_fuel pat r hpat
          · simp only [List.length_append, List.length_drop, List.length_cons]
            omega
          · exact le_refl _
        have e2 : replaceAllAux pat r ((x :: tl).drop pat.length) tl.length =
            replaceAll ((x :: tl).drop pat.length) pat r := by
          rw [replaceAll]
          apply replaceAllAux_congr_fuel pat r hpat
          · simp only [List.length_drop, List.length_cons]
            omega
          · exact le_refl _
        rw [e1, e2]
        rw [ih ((x :: tl).drop pat.length) b
          (by simp only [List.length_drop, List.length_cons] at *; omega)
          (cleanSplit_drop hclean pat.length)]
        simp [List.append_assoc]
      · -- no match at the head of `a`, and none straddling into `b`
        have hpb : pat.isPrefixOf (x :: (tl ++ b)) = false := by
          apply Bool.eq_false_iff.mpr
          intro hcontra
          rw [← hxb] at hcontra
          have hpre := List.isPrefixOf_iff_prefix.mp hcontra
          by_cases hle : pat.length ≤ (x :: tl).length
          · exact hp (List.isPrefixOf_iff_prefix.mpr
              ((prefix_append_iff_of_le b hle).mp hpre))
          · have hshort : (x :: tl) <+: pat :=
              append_short_left_prefix b hpre (by omega)
            have := hclean 0 (by simp) (by omega)
            rw [List.drop_zero] at this
            rw [List.isPrefixOf_iff_prefix.mpr hshort] at this
            exact Bool.noConfusion this
        rw [replaceAll, hxb, List.length_cons, replaceAllAux,
          if_neg (by simp [hpb])]
        rw [replaceAll, List.length_cons, replaceAllAux,
          if_neg (by simp [hp])]
        have htl : cleanSplit pat tl := by
          have := cleanSplit_drop hclean 1
          simpa using this
        have := ih tl b (by simp at hlen; omega) htl
        rw [replaceAll, replaceAll, replaceAll] at this
        simp only [List.length_append] at this ⊢
        rw [this]
        simp [replaceAll]

theorem replaceAll_id_of_noOccur (pat r : Str) (hpat : pat ≠ []) :
    ∀ a, noOccur pat a → replaceAll a pat r = a := by
  intro a
  induction a with
  | nil => intro _; simp [replaceAll, replaceAllAux]
  | cons x tl ih =>
    intro h
    have h0 := h 0 (by simp)
    rw [List.drop_zero] at h0
    rw [replaceAll, List.length_cons, replaceAllAux, if_neg (by simp [h0])]
    have htl : noOccur pat tl := by
      intro p hp
      have := h (p + 1) (by simp; omega)
      simpa using this
    rw [show replaceAllAux pat r tl tl.length = replaceAll tl pat r from rfl,
      ih htl]

theorem replaceAll_head_occurrence (pat r rest : Str) (hpat : pat ≠ []) :
    replaceAll (pat ++ rest) pat r = r ++ replaceAll rest pat r := by
  obtain ⟨pc, pt, hpe⟩ : ∃ pc pt, pat = pc :: pt := by
    cases pat with
    | nil => exact absurd rfl hpat
    | cons a b => exact ⟨a, b, rfl⟩
  subst hpe
  have hself : (pc :: pt).isPrefixOf ((pc :: pt) ++ rest) = true :=
    List.isPrefixOf_iff_prefix.mpr (List.prefix_append _ _)
  have hshape : (pc :: pt) ++ rest = pc :: (pt ++ rest) := rfl
  have hflen : ((pc :: pt) ++ rest).length = (pt ++ rest).length + 1 := by
    simp only [List.length_append, List.length_cons]
    omega
  rw [replaceAll, hflen, hshape, replaceAllAux]
  rw [if_pos ⟨hpat, by rw [← hshape]; exact hself⟩]
  rw [← hshape, List.drop_left]
  rw [show replaceAll rest (pc :: pt) r = replaceAllAux (pc :: pt) r rest rest.length from rfl]
  congr 1
  apply replaceAllAux_congr_fuel (pc :: pt) r hpat
  · simp [List.length_append]
  · exact le_refl _

theorem noOccur_of_head_notMem {pat m : Str} {hc : Char}
    (hh : pat.head? = some hc) (hm : hc ∉ m) : noOccur pat m := by
  intro p hp
  apply Bool.eq_false_iff.mpr
  intro hcontra
  have hpre := List.isPrefixOf_iff_prefix.mp hcontra
  match pat, hh, hpre with
  | c :: pt, hh, hpre =>
    injection hh with hh
    have hmem : c ∈ m.drop p := hpre.subset (by simp)
    rw [hh] at hmem
    exact hm (List.mem_of_mem_drop hmem)

theorem cleanSplit_of_head_notMem {pat m : Str} {hc : Char}
    (hh : pat.head? = some hc) (hm : hc ∉ m) : cleanSplit pat m := by
  intro p hp hlen
  apply Bool.eq_false_iff.mpr
  intro hcontra
  have hpre := List.isPrefixOf_iff_prefix.mp hcontra
  cases hdrop : m.drop p with
  | nil =>
    rw [hdrop] at hpre
    have : p < m.length := hp
    have hlen2 : (m.drop p).length = m.length - p := List.length_drop _ _
    rw [hdrop] at hlen2
    simp at hlen2
    omega
  | cons y ys =>
    rw [hdrop] at hpre
    have hyhead : pat.head? = some y := by
      match pat, hpre with
      | [], hpre =>
        have := hpre.length_le
        simp at this
      | pc :: pt, hpre =>
        obtain ⟨t, ht⟩ := hpre
        injection ht with h1 _
        simp [h1]
    rw [hh] at hyhead
    injection hyhead with hyhead
    have hy : y ∈ m := List.mem_of_mem_drop (by rw [hdrop]; simp)
    rw [← hyhead] at hy
    exact hm hy

/-- Lower-case hexadecimal digit, the table used by serde_json when it
emits a `\u00XX` escape. -/
def hexDigitChar (n : Nat) : Char :=
  if n < 10 then Char.ofNat (48 + n) else Char.ofNat (87 + n)

/-- Value of a hexadecimal digit (JSON string escapes accept both cases). -/
def hexVal (c : Char) : Option Nat :=
  if '0' ≤ c ∧ c ≤ '9' then some (c.toNat - 48)
  else if 'a' ≤ c ∧ c ≤ 'f' then some (c.toNat - 87)
  else if 'A' ≤ c ∧ c ≤ 'F' then some (c.toNat - 55)
  else none

/-- The escaping serde_json applies to one character of a string being
serialized: quote and backslash get a backslash escape, the five control
characters with short forms get those, the remaining control characters
get `\u00XX` (lower-case hex), everything else is emitted verbatim. -/
def escChar (c : Char) : Str :=
  if c = '"' then ['\\', '"']
  else if c = '\\' then ['\\', '\\']
  else if c = '\x08' then ['\\', 'b']
  else if c = '\x09' then ['\\', 't']
  else if c = '\x0a' then ['\\', 'n']
  else if c = '\x0c' then ['\\', 'f']
  else if c = '\x0d' then ['\\', 'r']
  else if c.toNat < 0x20 then
    ['\\', 'u', '0', '0', hexDigitChar (c.toNat / 16), hexDigitChar (c.toNat % 16)]
  else [c]

/-- Model of `escape_json_string` (src/plugins/external_http.rs): serialize
the string with serde_json and strip the two surrounding quotes, leaving
exactly the per-character escaping. -/
def escapeJsonString (s : Str) : Str := s.flatMap escChar

/-- Parse exactly four hexadecimal digits, returning the value and the
remaining input. -/
def parseHex4 : Str → Option (Nat × Str)
  | a :: b :: c :: d :: rest =>
    match hexVal a, hexVal b, hexVal c, hexVal d with
    | some x, some y, some z, some w =>
      some ((((x * 16 + y) * 16 + z) * 16 + w, rest))
    | _, _, _, _ => none
  | _ => none

theorem parseHex4_some_length {l : Str} {n : Nat} {r : Str}
    (h : parseHex4 l = some (n, r)) : l.length = r.length + 4 := by
  match l with
  | [] => exact absurd h (by simp [parseHex4])
  | [a] => exact absurd h (by simp [parseHex4])
  | [a, b] => exact absurd h (by simp [parseHex4])
  | [a, b, c] => exact absurd h (by simp [parseHex4])
  | a :: b :: c :: d :: rest =>
    rw [parseHex4] at h
    rcases ha : hexVal a with _ | x <;> rw [ha] at h <;>
      rcases hb : hexVal b with _ | y <;> rw [hb] at h <;>
        rcases hc2 : hexVal c with _ | z <;> rw [hc2] at h <;>
          rcases hd : hexVal d with _ | w <;> rw [hd] at h <;>
            simp_all

/-- Short named escapes of the JSON string grammar. -/
def namedEscape (e : Char) : Option Char :=
  if e = '"' then some '"'
  else if e = '\\' then some '\\'
  else if e = '/' then some '/'
  else if e = 'b' then some '\x08'
  else if e = 'f' then some '\x0c'
  else if e = 'n' then some '\x0a'
  else if e = 'r' then some '\x0d'
  else if e = 't' then some '\x09'
  else none

/-- Parser for the body of a JSON string literal (RFC 8259 grammar, the
one serde_json's `from_str` implements in strict mode): consume up to and
including the closing quote, rejecting raw control characters, unknown
escapes and lone surrogates; return the decoded content and the input
remaining after the closing quote. -/
def unescapeBody : Str → Option (Str × Str)
  | [] => none
  | c :: rest =>
    if c = '"' then some (([], rest))
    else if c = '\\' then
      match rest with
      | [] => none
      | 'u' :: rest2 =>
        match h4 : parseHex4 rest2 with
        | none => none
        | some (n, rest3) =>
          if 0xD800 ≤ n ∧ n ≤ 0xDBFF then
            match rest3 with
            | '\\' :: 'u' :: rest4 =>
              match h5 : parseHex4 rest4 with
              | none => none
              | some (m2, rest5) =>
                if 0xDC00 ≤ m2 ∧ m2 ≤ 0xDFFF then
                  (unescapeBody rest5).map fun p =>
                    (Char.ofNat (0x10000 + (n - 0xD800) * 0x400 + (m2 - 0xDC00)) :: p.1,
                      p.2)
                else none
            | _ => none
          else if 0xDC00 ≤ n ∧ n ≤ 0xDFFF then none
          else (unescapeBody rest3).map fun p => (Char.ofNat n :: p.1, p.2)
      | e :: rest2 =>
        match namedEscape e with
        | some d => (unescapeBody rest2).map fun p => (d :: p.1, p.2)
        | none => none
    else if c.toNat < 0x20 then none
    else (unescapeBody rest).map fun p => (c :: p.1, p.2)
termination_by l => l.length
decreasing_by
  · have e5 := parseHex4_some_length h5
    have e4 := parseHex4_some_length h4
    simp only [List.length_cons] at e4 e5 ⊢
    omega
  · have e4 := parseHex4_some_length h4
    simp only [List.length_cons] at e4 ⊢
    omega
  · simp only [List.length_cons]
    omega
  · simp only [List.length_cons]
    omega

/-- Parser for a complete JSON string literal: an opening quote, a body,
a closing quote, and nothing after it. -/
def parseJsonStringLit (l : Str) : Option Str :=
  match l with
  | '"' :: rest =>
    match unescapeBody rest with
    | some (s, []) => some s
    | _ => none
  | _ => none

theorem hexVal_hexDigitChar (n : Nat) (h : n < 16) :
    hexVal (hexDigitChar n) = some n := by
  interval_cases n <;> decide

theorem unescapeBody_escChar (c : Char) (rest : Str) :
    unescapeBody (escChar c ++ rest) =
      (unescapeBody rest).map fun p => (c :: p.1, p.2) := by
  by_cases h1 : c = '"'
  · subst h1
    rw [show escChar '"' ++ rest = '\\' :: '"' :: rest from rfl]
    rw [unescapeBody.eq_def]
    simp [namedEscape]
  by_cases h2 : c = '\\'
  · subst h2
    rw [show escChar '\\' ++ rest = '\\' :: '\\' :: rest from rfl]
    rw [unescapeBody.eq_def]
    simp [namedEscape]
  by_cases h3 : c = '\x08'
  · subst h3
    rw [show escChar '\x08' ++ rest = '\\' :: 'b' :: rest from rfl]
    rw [unescapeBody.eq_def]
    simp [namedEscape]
  by_cases h4 : c = '\x09'
  · subst h4
    rw [show escChar '\x09' ++ rest = '\\' :: 't' :: rest from rfl]
    rw [unescapeBody.eq_def]
    simp [namedEscape]
  by_cases h5 : c = '\x0a'
  · subst h5
    rw [show escChar '\x0a' ++ rest = '\\' :: 'n' :: rest from rfl]
    rw [unescapeBody.eq_def]
    simp [namedEscape]
  by_cases h6 : c = '\x0c'
  · subst h6
    rw [show escChar '\x0c' ++ rest = '\\' :: 'f' :: rest from rfl]
    rw [unescapeBody.eq_def]
    simp [namedEscape]
  by_cases h7 : c = '\x0d'
  · subst h7
    rw [show escChar '\x0d' ++ rest = '\\' :: 'r' :: rest from rfl]
    rw [unescapeBody.eq_def]
    simp [namedEscape]
  by_cases h8 : c.toNat < 0x20
  · have hesc : escChar c =
        ['\\', 'u', '0', '0', hexDigitChar (c.toNat / 16),
          hexDigitChar (c.toNat % 16)] := by
      unfold escChar
      rw [if_neg h1, if_neg h2, if_neg h3, if_neg h4, if_neg h5, if_neg h6,
        if_neg h7, if_pos h8]
    have hp4 : parseHex4 ('0' :: '0' :: hexDigitChar (c.toNat / 16) ::
        hexDigitChar (c.toNat % 16) :: rest) = some (c.toNat, rest) := by
      rw [parseHex4]
      rw [hexVal_hexDigitChar (c.toNat / 16) (by omega),
        hexVal_hexDigitChar (c.toNat % 16) (by omega)]
      rw [show hexVal '0' = some 0 from by decide]
      have harith : (((0 * 16 + 0) * 16 + c.toNat / 16) * 16 + c.toNat % 16)
          = c.toNat := by omega
      simp [harith]
      omega
    rw [hesc]
    rw [show ['\\', 'u', '0', '0', hexDigitChar (c.toNat / 16),
        hexDigitChar (c.toNat % 16)] ++ rest =
      '\\' :: 'u' :: ('0' :: '0' :: hexDigitChar (c.toNat / 16) ::
        hexDigitChar (c.toNat % 16) :: rest) from rfl]
    rw [unescapeBody.eq_def]
    dsimp only
    rw [if_neg (show ¬('\\' = '"') from by decide), if_pos rfl]
    split
    · rename_i heq
      exact absurd heq (by simp)
    · rename_i rest2 heq
      injection heq with _ heq
      subst heq
      split
      · rename_i hnone
        rw [hp4] at hnone
        cases hnone
      · rename_i n2 rest3 hsome
        rw [hp4] at hsome
        simp only [Option.some.injEq, Prod.mk.injEq] at hsome
        obtain ⟨hn2, hrest3⟩ := hsome
        subst hn2
        subst hrest3
        rw [if_neg (by omega), if_neg (by omega)]
        rw [Char.ofNat_toNat]
    · rename_i r0 e rest2 hno heq
      injection heq with heq1 _
      exact absurd heq1.symm hno
  · have hesc : escChar c = [c] := by
      unfold escChar
      rw [if_neg h1, if_neg h2, if_neg h3, if_neg h4, if_neg h5, if_neg h6,
        if_neg h7, if_neg h8]
    rw [hesc, show [c] ++ rest = c :: rest from rfl]
    rw [unescapeBody.eq_def]
    dsimp only
    rw [if_neg h1, if_neg h2, if_neg h8]

theorem unescapeBody_escapeJson (s : Str) :
    ∀ tail, unescapeBody (escapeJsonString s ++ ('"' :: tail)) = some (s, tail) := by
  induction s with
  | nil =>
    intro tail
    rw [show escapeJsonString [] ++ ('"' :: tail) = '"' :: tail from rfl]
    rw [unescapeBody.eq_def]
    simp
  | cons c cs ih =>
    intro tail
    rw [show escapeJsonString (c :: cs) = escChar c ++ escapeJsonString cs from rfl]
    rw [List.append_assoc, unescapeBody_escChar, ih tail]
    rfl

theorem escapeJson_roundTrip (s : Str) :
    parseJsonStringLit ('"' :: (escapeJsonString s ++ ['"'])) = some s := by
  rw [parseJsonStringLit]
  rw [show escapeJsonString s ++ ['"'] = escapeJsonString s ++ ('"' :: []) from rfl]
  rw [unescapeBody_escapeJson s []]

/-- Model of `serde_json::Value`.  Numbers are modelled as integers (the
source never inspects numeric leaves; floating point does not occur in any
claim).  Objects are association lists in the map's iteration order. -/
inductive Json where
  | null : Json
  | bool : Bool → Json
  | num : Int → Json
  | str : Str → Json
  | arr : List Json → Json
  | obj : List (Str × Json) → Json

/-- Model of `Value::get(key)` / `Map::get`: field lookup on an object,
`None` on any other variant. -/
def Json.getKey : Json → Str → Option Json
  | .obj fs, key => (fs.find? fun kv => kv.1 == key).map Prod.snd
  | _, _ => none

/-- Model of `Value::as_bool`. -/
def Json.asBool : Json → Option Bool
  | .bool b => some b
  | _ => none

/-- Model of `Value::as_str`. -/
def Json.asStr : Json → Option Str
  | .str s => some s
  | _ => none

/-- Lookup in a `serde_json::Map` modelled as an association list. -/
def mapGet (m : List (Str × Json)) (key : Str) : Option Json :=
  (m.find? fun kv => kv.1 == key).map Prod.snd

mutual

/-- Model of `serde_json::Value::to_string` (compact form, serde's string
escaping, object fields in the map's iteration order). -/
def Json.serialize : Json → Str
  | .null => ("null").data
  | .bool b => if b then ("true").data else ("false").data
  | .num n => (toString n).data
  | .str s => '"' :: escapeJsonString s ++ ['"']
  | .arr xs => '[' :: serializeItems xs ++ [']']
  | .obj fs => '{' :: serializeFields fs ++ ['}']

/-- Comma-separated serialization of array items. -/
def serializeItems : List Json → Str
  | [] => []
  | x :: rest =>
    x.serialize ++ (if rest.isEmpty then [] else ',' :: serializeItems rest)

/-- Comma-separated serialization of object fields. -/
def serializeFields : List (Str × Json) → Str
  | [] => []
  | (k, v) :: rest =>
    ('"' :: escapeJsonString k ++ '"' :: ':' :: v.serialize)
      ++ (if rest.isEmpty then [] else ',' :: serializeFields rest)

end

/-- Model of Rust `str::split(sep)` on one separator character. -/
def splitOnChar (sep : Char) : Str → List Str
  | [] => [[]]
  | c :: rest =>
    if c = sep then [] :: splitOnChar sep rest
    else
      match splitOnChar sep rest with
      | [] => [[c]]
      | g :: gs => (c :: g) :: gs

/-- JSON-pointer token unescaping, as serde_json does it:
`~1` becomes `/`, then `~0` becomes `~`. -/
def unescapeToken (tok : Str) : Str :=
  replaceAll (replaceAll tok (("~1").data) (("/").data)) (("~0").data) (("~").data)

/-- Model of serde_json's `parse_index`: array indices in pointers must be
plain decimal with no leading `+` and no leading zeros. -/
def parseIndex (tok : Str) : Option Nat :=
  if tok = [] then none
  else if tok.head? = some '+' then none
  else if tok.head? = some '0' ∧ tok.length ≠ 1 then none
  else if tok.all fun c => decide ('0' ≤ c ∧ c ≤ '9') then
    some (tok.foldl (fun acc c => acc * 10 + (c.toNat - 48)) 0)
  else none

/-- Walk of a JSON pointer's unescaped tokens. -/
def Json.pointerAux : Json → List Str → Option Json
  | v, [] => some v
  | v, tok :: rest =>
    let t := unescapeToken tok
    match v with
    | .obj fs =>
      match mapGet fs t with
      | some x => x.pointerAux rest
      | none => none
    | .arr xs =>
      match parseIndex t with
      | some i =>
        match xs.get? i with
        | some x => x.pointerAux rest
        | none => none
      | none => none
    | _ => none

/-- Model of `serde_json::Value::pointer`: empty pointer resolves to the
root, anything not starting with `/` resolves to nothing, otherwise the
`/`-separated tokens are walked from the root. -/
def Json.pointer (v : Json) (p : Str) : Option Json :=
  if p = [] then some v
  else if p.head? ≠ some '/' then none
  else v.pointerAux ((splitOnChar '/' p).drop 1)

/-- Model of `ExternalHttpDefinition` (src/plugins/external_http.rs). -/
structure ExternalHttpDefinition where
  name : Str
  url : Str
  bearerToken : Option Str
  timeoutMs : Nat
  requestTemplate : Option Str
  blockField : Str
  reasonCode : Int
  reason : Option Str
  failOpen : Bool
  nonEmptyPointerBlocks : Bool

/-- Model of `AnalyzeResponse` (src/lib.rs). -/
structure AnalyzeResponse where
  blockAction : Bool
  reasonCode : Option Int
  reason : Option Str
  blockedBy : Option Str
  diagnostics : Option Json

/-- The default allow verdict: `blockAction=false`, everything else absent. -/
def defaultAllow : AnalyzeResponse :=
  ⟨false, none, none, none, none⟩

/-- Model of `ExternalHttpPlugin::extract_block`: derive an optional block
signal from the parsed response body according to `blockField`. -/
def extractBlock (d : ExternalHttpDefinition) (val : Json) : Option Bool :=
  if d.blockField = ("block").data then
    match (val.getKey (("block").data)).bind Json.asBool with
    | some b => some b
    | none => none
  else if d.blockField = ("allow").data then
    match (val.getKey (("allow").data)).bind Json.asBool with
    | some a => some (!a)
    | none => none
  else if d.blockField = ("/").data then
    if d.nonEmptyPointerBlocks then
      match val with
      | .arr a => some (!a.isEmpty)
      | .obj o => some (!o.isEmpty)
      | .bool b => some b
      | _ => none
    else none
  else if d.blockField.head? = some '/' ∨ d.blockField.contains '/' then
    match val.pointer d.blockField with
    | some ptr =>
      match ptr.asBool with
      | some b => some b
      | none =>
        if d.nonEmptyPointerBlocks then
          match ptr with
          | .arr a => some (!a.isEmpty)
          | .obj o => some (!o.isEmpty)
          | _ => none
        else none
    | none => none
  else none

/-- Outcome of the external detector's HTTP exchange, as seen by `eval`
after the transport and serde have run: the send can fail, reading the
response body can fail (the status is already known then), and the body
either parses to a JSON value or does not. -/
inductive HttpResult where
  | netErr : HttpResult
  | readErr : Nat → HttpResult
  | parseErr : Nat → HttpResult
  | parsed : Nat → Json → HttpResult

/-- Diagnostics object helper used by the external detector. -/
def externalDiag (code : Str) : Json :=
  Json.obj [(("plugin").data, Json.str (("external_http").data)),
    (("code").data, Json.str code)]

/-- Diagnostics object helper carrying the HTTP status. -/
def externalDiagStatus (code : Str) (status : Nat) : Json :=
  Json.obj [(("plugin").data, Json.str (("external_http").data)),
    (("code").data, Json.str code),
    (("status").data, Json.num (Int.ofNat status))]

/-- A blocking response of the external detector: configured reason code,
configured reason with the branch default as fallback, the detector's own
name, and the branch diagnostics. -/
def externalBlockResponse (d : ExternalHttpDefinition) (reasonDefault : Str)
    (diag : Json) : AnalyzeResponse :=
  ⟨true, some d.reasonCode, some (d.reason.getD reasonDefault), some d.name,
    some diag⟩

/-- Model of `ExternalHttpPlugin::eval` after the request body has been
rendered and sent: interpret the exchange outcome exactly as the source's
match arms do (src/plugins/external_http.rs, lines 150-257). -/
def externalEval (d : ExternalHttpDefinition) (res : HttpResult) :
    Option AnalyzeResponse :=
  match res with
  | .netErr =>
    if !d.failOpen then
      some (externalBlockResponse d (("External HTTP error").data)
        (externalDiag (("network_error").data)))
    else none
  | .readErr _ =>
    if !d.failOpen then
      some (externalBlockResponse d (("External HTTP read error").data)
        (externalDiag (("read_error").data)))
    else none
  | .parseErr status =>
    if !d.failOpen then
      some (externalBlockResponse d (("External HTTP parse error").data)
        (externalDiagStatus (("parse_error").data) status))
    else none
  | .parsed status json =>
    match extractBlock d json with
    | some block =>
      if block then
        some (externalBlockResponse d (("External policy block").data)
          (externalDiagStatus (("block").data) status))
      else none
    | none => none

/-- Model of `AnalyzeRequest`, restricted to the fields the modelled code
reads: the planner's user message, the tool definition's name, and the
`inputValues` map (association list in map iteration order).  The other
fields of the source structure feed only the `Precomputed` context, which
is modelled by its resulting fields below. -/
structure AnalyzeRequest where
  userMessage : Option Str
  toolName : Option Str
  inputValues : List (Str × Json)

/-- The default request template of the external HTTP detector
(src/plugins/external_http.rs, `DEFAULT_TEMPLATE`). -/
def defaultTemplate : Str :=
  ("\x7b\n  \"userMessage\": \"${userMessage}\",\n  \"toolName\": \"${toolName}\",\n  \"input\": ${inputJson}\n\x7d").data

/-- Model of `ExternalHttpPlugin::render_body`: five placeholder
substitutions applied in the source's order, later ones operating on the
output of earlier ones. -/
def renderBody (d : ExternalHttpDefinition) (req : AnalyzeRequest) : Str :=
  let template := d.requestTemplate.getD defaultTemplate
  let userMessageRaw := req.userMessage.getD []
  let toolNameRaw := req.toolName.getD []
  let userMessage := escapeJsonString userMessageRaw
  let toolName := escapeJsonString toolNameRaw
  let userMessageJson := '"' :: escapeJsonString userMessageRaw ++ ['"']
  let toolNameJson := '"' :: escapeJsonString toolNameRaw ++ ['"']
  let inputJson := (Json.obj req.inputValues).serialize
  let r1 := replaceAll template (("${inputJson}").data) inputJson
  let r2 := replaceAll r1 (("${userMessageJson}").data) userMessageJson
  let r3 := replaceAll r2 (("${toolNameJson}").data) toolNameJson
  let r4 := replaceAll r3 (("${userMessage}").data) userMessage
  replaceAll r4 (("${toolName}").data) toolName

/-- Model of `Precomputed` (src/util.rs): the pipeline claims quantify
over its fields directly, so the structure carries the results of the
per-request precomputation. -/
structure Precomputed where
  fullTextLower : Str
  strings : List Str
  urlsLower : List Str

/-- Model of `EvalContext` (src/util.rs).  The deadline is a clock effect
and lives in the evaluation oracle (`World`), not here. -/
structure EvalContext where
  pre : Precomputed
  pluginWarnMs : Nat

/-- Diagnostics object `{plugin, code}` emitted by local detectors. -/
def pluginDiag (plugin code : Str) : Json :=
  Json.obj [(("plugin").data, Json.str plugin), (("code").data, Json.str code)]

/-- Diagnostics object `{plugin, code, detail}`. -/
def pluginDiagDetail (plugin code detail : Str) : Json :=
  Json.obj [(("plugin").data, Json.str plugin), (("code").data, Json.str code),
    (("detail").data, Json.str detail)]

/-- Model of `PolicyRule` (src/plugins/policy_pack.rs). -/
structure PolicyRule where
  tool : Option Str
  arg : Option Str
  contains : List Str
  patterns : List Str
  reasonCode : Option Int
  reason : Option Str

/-- Model of a compiled policy rule.  Compiled regexes are carried as
their `(?i)`-prefixed pattern text; whether a pattern compiles and what
it matches are properties of the regex engine, which is an oracle. -/
structure CompiledRule where
  tool : Option Str
  arg : Option Str
  contains : List Str
  regexes : List Str
  reasonCode : Int
  reason : Option Str

/-- Oracle for the regex engine used on user-supplied policy patterns:
whether a pattern source compiles, and whether a compiled pattern matches
a haystack. -/
structure RegexEngine where
  compiles : Str → Bool
  isMatch : Str → Str → Bool

/-- Model of `PluginConfig` (src/plugins/mod.rs). -/
structure PluginConfig where
  piiKeywords : List Str
  domainBlocklist : List Str
  policies : List PolicyRule
  companyDomain : Str
  externalHttp : List ExternalHttpDefinition

/-- Warnings the construction and evaluation paths log (modelled as data
so that "dropped with a warning" versus "dropped silently" is provable). -/
inductive LogWarning where
  | unknownPlugin : Str → LogWarning
  | externalDefMissing : Str → LogWarning
  | policyRegexListTruncated : Nat → LogWarning
  | policyPatternOversized : Nat → LogWarning
  | policyRegexCompileFailed : Str → LogWarning

/-- The fixed exfiltration pattern list (src/plugins/exfil.rs). -/
def exfilPatterns : List Str :=
  [("export all data").data, ("ignore previous instructions").data,
    ("reveal secrets").data, ("print the system prompt").data,
    ("exfiltrate").data]

/-- The blocking response of the exfiltration detector. -/
def exfilResponse (pat : Str) : AnalyzeResponse :=
  ⟨true, some 111, some (("Detected data exfiltration pattern").data),
    some (("exfil").data),
    some (pluginDiagDetail (("exfil").data) (("pattern").data) pat)⟩

/-- Model of `ExfilPlugin::eval`: first matching pattern blocks. -/
def exfilEval (ctx : EvalContext) : Option AnalyzeResponse :=
  match exfilPatterns.find? (fun pat => containsStr ctx.pre.fullTextLower pat) with
  | some pat => some (exfilResponse pat)
  | none => none

/-- Character class `[0-9a-z]` under the `(?i)` flag of the AWS key
pattern, i.e. ASCII alphanumerics. -/
def awsKeyChar (c : Char) : Bool := c.isAlphanum

/-- Model of `AWS_KEY_RE.is_match` for `(?i)akia[0-9a-z]{14,20}`: some
position starts with `akia` (ASCII case-insensitively) followed by at
least 14 characters of the class; a match exists exactly then, because
`is_match` only asks for existence. -/
def awsKeyIsMatch (text : Str) : Bool :=
  (List.range (text.length + 1)).any fun i =>
    let rest := text.drop i
    eqIgnoreAsciiCase (rest.take 4) (("akia").data)
    && decide (18 ≤ rest.length)
    && ((rest.drop 4).take 14).all awsKeyChar

/-- The blocking response of the secrets detector. -/
def secretsResponse : AnalyzeResponse :=
  ⟨true, some 201, some (("Detected AWS key").data), some (("secrets").data),
    some (pluginDiag (("secrets").data) (("aws_key").data))⟩

/-- Model of `SecretsPlugin::eval`: scan the full text, then each input
string. -/
def secretsEval (ctx : EvalContext) : Option AnalyzeResponse :=
  if awsKeyIsMatch ctx.pre.fullTextLower then some secretsResponse
  else
    match ctx.pre.strings.find? awsKeyIsMatch with
    | some _ => some secretsResponse
    | none => none

/-- Character class `[a-zA-Z0-9_.+-]` (the local part of EMAIL_RE). -/
def emailLocalChar (c : Char) : Bool :=
  c.isAlphanum || c = '_' || c = '.' || c = '+' || c = '-'

/-- Character class `[a-zA-Z0-9-]` (the first domain label of EMAIL_RE). -/
def emailDomChar (c : Char) : Bool := c.isAlphanum || c = '-'

/-- Character class `[a-zA-Z0-9-.]` (the tail of EMAIL_RE). -/
def emailTailChar (c : Char) : Bool := c.isAlphanum || c = '-' || c = '.'

/-- Length of the unique EMAIL_RE match starting at the head of `l`, if
one starts there.  The pattern `A+@B+\.C+` is deterministic: `@` is not
in `A`, `.` is not in `B`, so each greedy run is forced and no
backtracking alternative exists. -/
def emailMatchAt (l : Str) : Option Nat :=
  let aRun := (l.takeWhile emailLocalChar).length
  if aRun = 0 then none
  else
    match l.drop aRun with
    | '@' :: rest2 =>
      let bRun := (rest2.takeWhile emailDomChar).length
      if bRun = 0 then none
      else
        match rest2.drop bRun with
        | '.' :: rest3 =>
          let cRun := (rest3.takeWhile emailTailChar).length
          if cRun = 0 then none else some (aRun + 1 + bRun + 1 + cRun)
        | _ => none
    | _ => none

/-- Fuel-driven worker for `emailFindIter`. -/
def emailFindIterAux : Nat → Str → List Str
  | 0, _ => []
  | fuel + 1, l =>
    match l with
    | [] => []
    | c :: rest =>
      match emailMatchAt (c :: rest) with
      | some len => (c :: rest).take len :: emailFindIterAux fuel ((c :: rest).drop len)
      | none => emailFindIterAux fuel rest

/-- Model of `EMAIL_RE.find_iter`: the non-overlapping matches in text
order (leftmost start, the unique match at that start, resume after it). -/
def emailFindIter (l : Str) : List Str := emailFindIterAux l.length l

/-- Model of `PiiPlugin::contains_non_company_pii`: some email match,
lower-cased, does not end with `@` plus the configured company domain.
Matched text is ASCII (the email classes are ASCII), so ASCII lowering
equals the source's Unicode lowering here; the domain pattern itself is
used verbatim, without lowering. -/
def containsNonCompanyPii (cfg : PluginConfig) (text : Str) : Bool :=
  let domainPattern := '@' :: cfg.companyDomain
  (emailFindIter text).any fun m => !(domainPattern.isSuffixOf (asciiLower m))

/-- ASCII model of the regex word class `\w`, used for `\b` boundaries.
(The engine's class is Unicode-wide; the detectors run on lower-cased
text and every input in the claims is ASCII, where the two agree.) -/
def isWordChar (c : Char) : Bool := c.isAlphanum || c = '_'

/-- Uppercase ASCII letter. -/
def isUpperChar (c : Char) : Bool := decide ('A' ≤ c ∧ c ≤ 'Z')

/-- Class `[A-Z0-9]`. -/
def isUpperDigitChar (c : Char) : Bool := isUpperChar c || c.isDigit

/-- One candidate decomposition of the IBAN pattern
`\b[A-Z]{2}\d{2}[A-Z0-9]{10,30}\b` at start `i` with `k` tail
characters. -/
def ibanCandidate (text : Str) (i k : Nat) : Bool :=
  let rest := text.drop i
  decide (4 + k ≤ rest.length)
  && ((rest.take 2).all isUpperChar)
  && (((rest.drop 2).take 2).all Char.isDigit)
  && (((rest.drop 4).take k).all isUpperDigitChar)
  && (match i with
      | 0 => true
      | j + 1 =>
        match text.get? j with
        | some c => !isWordChar c
        | none => true)
  && (match text.get? (i + 4 + k) with
      | some c => !isWordChar c
      | none => true)

/-- Model of `IBAN_RE.is_match`: a match exists iff some start and some
tail length in 10..30 satisfy the pattern with word boundaries on both
sides. -/
def ibanIsMatch (text : Str) : Bool :=
  (List.range (text.length + 1)).any fun i =>
    (List.range 21).any fun kk => ibanCandidate text i (10 + kk)

/-- The separator class `[\s.-]` of the phone pattern. -/
def phoneSep (c : Char) : Bool := isRustWhitespace c || c = '.' || c = '-'

/-- Optionally consume one character satisfying `p`: the possible
remainders. -/
def optConsume (p : Char → Bool) (l : Str) : List Str :=
  l :: (match l with
    | c :: rest => if p c then [rest] else []
    | [] => [])

/-- Consume between `lo` and `hi` decimal digits: the possible remainders. -/
def digitsBetween (lo hi : Nat) (l : Str) : List Str :=
  (List.range (hi + 1)).filterMap fun k =>
    if lo ≤ k ∧ k ≤ l.length ∧ ((l.take k).all Char.isDigit) then some (l.drop k)
    else none

/-- A match of the phone pattern
`\+?\d{1,3}[\s.-]?\(?(?:\d{1,4})\)?[\s.-]?\d{3,}[\s.-]?\d{3,}`
starting at the head of `l` (existence over all quantifier choices, which
is what `is_match` asks). -/
def phoneMatchAt (l : Str) : Bool :=
  let s0 := optConsume (fun c => c = '+') l
  let s1 := s0.flatMap (digitsBetween 1 3)
  let s2 := s1.flatMap (optConsume phoneSep)
  let s3 := s2.flatMap (optConsume (fun c => c = '('))
  let s4 := s3.flatMap (digitsBetween 1 4)
  let s5 := s4.flatMap (optConsume (fun c => c = ')'))
  let s6 := s5.flatMap (optConsume phoneSep)
  let s7 := s6.flatMap fun l2 => digitsBetween 3 l2.length l2
  let s8 := s7.flatMap (optConsume phoneSep)
  s8.any fun l2 => decide (3 ≤ l2.length) && ((l2.take 3).all Char.isDigit)

/-- Model of `PHONE_RE.is_match`. -/
def phoneIsMatch (text : Str) : Bool :=
  (List.range (text.length + 1)).any fun i => phoneMatchAt (text.drop i)

/-- ASCII-case-insensitive substring containment, the matching the
Aho-Corasick automaton built with `ascii_case_insensitive(true)` does. -/
def ciContains (hay pat : Str) : Bool :=
  (List.range (hay.length + 1)).any fun i =>
    (asciiLower pat).isPrefixOf (asciiLower (hay.drop i))

/-- Model of `ac_for(keywords).is_match(hay)` (src/util.rs): the patterns
are lower-cased at build time and matched ASCII-case-insensitively; the
cache only shares automata and does not change what matches. -/
def acIsMatch (patterns : List Str) (hay : Str) : Bool :=
  patterns.any fun p => ciContains hay (asciiLower p)

/-- Whether the PII detector's built-in patterns fire on one haystack. -/
def piiBuiltin (cfg : PluginConfig) (text : Str) : Bool :=
  containsNonCompanyPii cfg text || ibanIsMatch text || phoneIsMatch text

/-- The blocking response of the PII detector, parameterized by the
diagnostics code of the branch that fired. -/
def piiResponse (code : Str) : AnalyzeResponse :=
  ⟨true, some 202, some (("Detected potential PII in content.").data),
    some (("pii").data), some (pluginDiag (("pii").data) code)⟩

/-- The per-input-string loop of `PiiPlugin::eval`. -/
def piiEvalStrings (cfg : PluginConfig) : List Str → Option AnalyzeResponse
  | [] => none
  | s :: rest =>
    if piiBuiltin cfg s then some (piiResponse (("input").data))
    else if cfg.piiKeywords ≠ [] ∧ acIsMatch cfg.piiKeywords s then
      some (piiResponse (("keyword").data))
    else piiEvalStrings cfg rest

/-- Model of `PiiPlugin::eval` (src/plugins/pii.rs): built-in patterns on
the full text, then keywords on the full text, then both per input
string. -/
def piiEval (ctx : EvalContext) (cfg : PluginConfig) : Option AnalyzeResponse :=
  let hay := ctx.pre.fullTextLower
  if piiBuiltin cfg hay then some (piiResponse (("builtin").data))
  else if cfg.piiKeywords ≠ [] ∧ acIsMatch cfg.piiKeywords hay then
    some (piiResponse (("keyword").data))
  else piiEvalStrings cfg ctx.pre.strings

/-- The blocking response of the email-BCC detector. -/
def emailBccResponse (addr : Str) : AnalyzeResponse :=
  ⟨true, some 112, some (("Noncompliant BCC domain.").data),
    some (("email_bcc").data),
    some (pluginDiagDetail (("email_bcc").data) (("bcc").data) addr)⟩

/-- The lower-cased, trimmed BCC address of the source's `addr` binding. -/
def bccAddr (s : Str) : Str := asciiLower (trimStr s)

/-- Model of `EmailBccPlugin::eval` (src/plugins/email_bcc.rs).  Tool-name
and address lowering use the ASCII model of `to_lowercase`. -/
def emailBccEval (req : AnalyzeRequest) (cfg : PluginConfig) :
    Option AnalyzeResponse :=
  if !(containsStr (asciiLower (req.toolName.getD [])) (("mail").data))
      && !(containsStr (asciiLower (req.toolName.getD [])) (("email").data)) then
    none
  else
    match mapGet req.inputValues (("bcc").data) with
    | some (Json.str s) =>
      if bccAddr s ≠ [] then
        if !(('@' :: cfg.companyDomain).isSuffixOf (bccAddr s)) then
          some (emailBccResponse (bccAddr s))
        else none
      else none
    | _ => none

/-- Boundary test of the domain-block scan: the neighbouring character is
acceptable when it is neither an ASCII alphanumeric nor a dash. -/
def boundaryOkChar (c : Char) : Bool := !c.isAlphanum && c ≠ '-'

/-- The `before_ok` test of `domain_in_text`: the character just before
position `i`, when there is one, is neither ASCII alphanumeric nor dash. -/
def beforeOkAt (text : Str) (i : Nat) : Bool :=
  match i with
  | 0 => true
  | j + 1 =>
    match text.get? j with
    | some c => boundaryOkChar c
    | none => true

/-- The `after_ok` test of `domain_in_text`: the character just after the
occurrence of `dom` at `i`, when there is one, is neither ASCII
alphanumeric nor dash. -/
def afterOkAt (text dom : Str) (i : Nat) : Bool :=
  if text.length ≤ i + dom.length then true
  else
    match text.get? (i + dom.length) with
    | some c => boundaryOkChar c
    | none => true

/-- An occurrence of `dom` at position `i` of `text` whose two boundary
tests both pass — the property `domain_in_text` is meant to detect. -/
def occursOkAt (text dom : Str) (i : Nat) : Bool :=
  occursAt text dom i && beforeOkAt text i && afterOkAt text dom i

/-- Model of the scan loop inside `domain_in_text`
(src/plugins/domain_block.rs): find the next occurrence at or after the
current position; if its two boundaries pass, report it, otherwise resume
after its end.  The fuel bounds the iterations (the source loop advances
by the domain's length each time; for an empty domain the source would
loop forever on a failing position — the model returns `none` there). -/
def domainScan (text dom : Str) : Nat → Nat → Option Nat
  | _, 0 => none
  | searchStart, fuel + 1 =>
    match findFrom text dom searchStart with
    | none => none
    | some absStart =>
      if beforeOkAt text absStart && afterOkAt text dom absStart then
        some absStart
      else domainScan text dom (absStart + dom.length) fuel

/-- Model of `domain_in_text`: try each domain in order; report the first
boundary-passing occurrence (the source also formats the position into a
string; the model keeps the number). -/
def domainInText (text : Str) (domains : List Str) : Option (Str × Nat) :=
  domains.findSome? fun dom =>
    (domainScan text dom 0 (text.length + 1)).map fun p => (dom, p)

/-- The built-in fallback blocklist (src/plugins/domain_block.rs). -/
def defaultDomainList : List Str :=
  [("example.com").data, ("mailinator.com").data, ("tempmail").data,
    ("evil.com").data]

/-- The blocking response of the domain-block detector. -/
def domainBlockResponse (dom : Str) : AnalyzeResponse :=
  ⟨true, some 113, some (("Input contains disallowed domain.").data),
    some (("domain_block").data),
    some (pluginDiagDetail (("domain_block").data) (("domain").data) dom)⟩

/-- The effective blocklist: the configured one, or the built-in default
when it is empty. -/
def domainListOf (cfg : PluginConfig) : List Str :=
  if cfg.domainBlocklist.isEmpty then defaultDomainList else cfg.domainBlocklist

/-- Model of `DomainBlockPlugin::eval`: scan the full text, then each
input string, against the configured or default list. -/
def domainBlockEval (ctx : EvalContext) (cfg : PluginConfig) :
    Option AnalyzeResponse :=
  match domainInText ctx.pre.fullTextLower (domainListOf cfg) with
  | some (dom, _) => some (domainBlockResponse dom)
  | none =>
    match ctx.pre.strings.findSome? (fun s => domainInText s (domainListOf cfg)) with
    | some (dom, _) => some (domainBlockResponse dom)
    | none => none

/-- Model of the per-rule part of `PolicyPackPlugin::new`: truncate the
pattern list at 50 (with a warning), drop oversized patterns (with a
warning each), then compile; patterns the engine rejects are dropped with
a warning. -/
def compileRule (engine : RegexEngine) (r : PolicyRule) :
    CompiledRule × List LogWarning :=
  let trunc := r.patterns.length > 50
  let pats1 := if trunc then r.patterns.take 50 else r.patterns
  let w1 : List LogWarning :=
    if trunc then [LogWarning.policyRegexListTruncated r.patterns.length] else []
  let w2 := (pats1.filter fun p => decide (p.length > 500)).map
    fun p => LogWarning.policyPatternOversized p.length
  let pats2 := pats1.filter fun p => decide (p.length ≤ 500)
  let w3 := (pats2.filter fun p => !engine.compiles ((("(?i)").data) ++ p)).map
    LogWarning.policyRegexCompileFailed
  let regexes := (pats2.filter fun p => engine.compiles ((("(?i)").data) ++ p)).map
    fun p => (("(?i)").data) ++ p
  (⟨r.tool.map asciiLower, r.arg.map asciiLower, r.contains.map asciiLower,
    regexes, r.reasonCode.getD 700, r.reason⟩, w1 ++ w2 ++ w3)

/-- Model of `PolicyPackPlugin::new` over the whole rule list. -/
def policyCompile (engine : RegexEngine) :
    List PolicyRule → List CompiledRule × List LogWarning
  | [] => ([], [])
  | r :: rest =>
    let (c, w) := compileRule engine r
    let (cs, ws) := policyCompile engine rest
    (c :: cs, w ++ ws)

/-- Target selection of one policy rule (src/plugins/policy_pack.rs):
either the named argument when it is a string, or the full text plus every
input string. -/
def ruleTargets (req : AnalyzeRequest) (ctx : EvalContext)
    (rule : CompiledRule) : List Str :=
  match rule.arg with
  | some argName =>
    match mapGet req.inputValues argName with
    | some v =>
      match v.asStr with
      | some s => [s]
      | none => []
    | none => []
  | none => ctx.pre.fullTextLower :: ctx.pre.strings

/-- Whether one rule fires on its targets: any literal substring, else any
regex (via the engine oracle), on the lower-cased target. -/
def ruleMatches (engine : RegexEngine) (rule : CompiledRule)
    (targets : List Str) : Bool :=
  targets.any fun t =>
    let tl := asciiLower t
    rule.contains.any (fun c => containsStr tl c)
      || rule.regexes.any (fun re => engine.isMatch re tl)

/-- The blocking response of the policy-pack detector. -/
def policyResponse (rule : CompiledRule) : AnalyzeResponse :=
  ⟨true, some rule.reasonCode,
    some (rule.reason.getD (("Policy rule triggered").data)),
    some (("policy_pack").data),
    some (pluginDiag (("policy_pack").data) (("policy").data))⟩

/-- Model of `PolicyPackPlugin::eval`: rules in declared order, first
firing rule wins; a rule scoped to a different tool is skipped. -/
def policyPackEval (engine : RegexEngine) (req : AnalyzeRequest)
    (ctx : EvalContext) : List CompiledRule → Option AnalyzeResponse
  | [] => none
  | rule :: rest =>
    if (match rule.tool with
        | some t => asciiLower (req.toolName.getD []) == t
        | none => true) then
      if ruleMatches engine rule (ruleTargets req ctx rule) then
        some (policyResponse rule)
      else policyPackEval engine req ctx rest
    else policyPackEval engine req ctx rest

/-- A registered detector of the constructed pipeline. -/
inductive PluginId where
  | exfil : PluginId
  | secrets : PluginId
  | pii : PluginId
  | emailBcc : PluginId
  | domainBlock : PluginId
  | policyPack : List CompiledRule → PluginId
  | externalHttp : ExternalHttpDefinition → PluginId

/-- Model of `Plugin::name` for each registered detector. -/
def pluginName : PluginId → Str
  | .exfil => ("exfil").data
  | .secrets => ("secrets").data
  | .pii => ("pii").data
  | .emailBcc => ("email_bcc").data
  | .domainBlock => ("domain_block").data
  | .policyPack _ => ("policy_pack").data
  | .externalHttp d => d.name

/-- Evaluation-time effects: the external HTTP exchange per definition,
and the clock consulted by the orchestrator (deadline check before the
i-th detector, elapsed milliseconds of the i-th run). -/
structure World where
  http : ExternalHttpDefinition → HttpResult
  deadlineExceeded : Nat → Bool
  elapsedMs : Nat → Nat

/-- Dispatch of `Plugin::eval` over the registered detectors. -/
def pluginEval (engine : RegexEngine) (w : World) (p : PluginId)
    (req : AnalyzeRequest) (ctx : EvalContext) (cfg : PluginConfig) :
    Option AnalyzeResponse :=
  match p with
  | .exfil => exfilEval ctx
  | .secrets => secretsEval ctx
  | .pii => piiEval ctx cfg
  | .emailBcc => emailBccEval req cfg
  | .domainBlock => domainBlockEval ctx cfg
  | .policyPack rules => policyPackEval engine req ctx rules
  | .externalHttp d => externalEval d (w.http d)

/-- Model of `PluginPipeline::new` (src/plugins/mod.rs, lines 96-127):
map identifier names to detector instances in order; `policy_pack` with an
empty rule list contributes nothing and no warning, a missing external
definition and an unknown name each contribute a warning. -/
def pipelineNew (engine : RegexEngine) : List Str → PluginConfig →
    List PluginId × List LogWarning
  | [], _ => ([], [])
  | name :: rest, cfg =>
    let prev := pipelineNew engine rest cfg
    if name = ("exfil").data then (PluginId.exfil :: prev.1, prev.2)
    else if name = ("secrets").data then (PluginId.secrets :: prev.1, prev.2)
    else if name = ("pii").data then (PluginId.pii :: prev.1, prev.2)
    else if name = ("email_bcc").data then (PluginId.emailBcc :: prev.1, prev.2)
    else if name = ("domain_block").data then
      (PluginId.domainBlock :: prev.1, prev.2)
    else if name = ("policy_pack").data then
      if cfg.policies.isEmpty then prev
      else
        (PluginId.policyPack (policyCompile engine cfg.policies).1 :: prev.1,
          (policyCompile engine cfg.policies).2 ++ prev.2)
    else if (("external_").data).isPrefixOf name then
      match cfg.externalHttp.find? (fun d => d.name == name) with
      | some d => (PluginId.externalHttp d :: prev.1, prev.2)
      | none => (prev.1, LogWarning.externalDefMissing name :: prev.2)
    else (prev.1, LogWarning.unknownPlugin name :: prev.2)

/-- Worker of `PluginPipeline::evaluate_with_timings` (src/plugins/mod.rs,
lines 132-172): before each detector consult the deadline and stop with
the default allow verdict and the timings so far; otherwise run the
detector, append its timing, and on a blocking verdict fill `blockedBy`
when unset and return immediately. -/
def evaluateAux (engine : RegexEngine) (w : World) (req : AnalyzeRequest)
    (ctx : EvalContext) (cfg : PluginConfig) :
    List PluginId → Nat → List (Str × Nat) →
      AnalyzeResponse × List (Str × Nat)
  | [], _, acc => (defaultAllow, acc)
  | p :: rest, i, acc =>
    if w.deadlineExceeded i then (defaultAllow, acc)
    else
      match pluginEval engine w p req ctx cfg with
      | some resp =>
        if resp.blockAction then
          (if resp.blockedBy.isNone then
            ⟨resp.blockAction, resp.reasonCode, resp.reason,
              some (pluginName p), resp.diagnostics⟩
          else resp, acc ++ [(pluginName p, w.elapsedMs i)])
        else
          evaluateAux engine w req ctx cfg rest (i + 1)
            (acc ++ [(pluginName p, w.elapsedMs i)])
      | none =>
        evaluateAux engine w req ctx cfg rest (i + 1)
          (acc ++ [(pluginName p, w.elapsedMs i)])

/-- Model of `PluginPipeline::evaluate_with_timings`. -/
def evaluateWithTimings (engine : RegexEngine) (w : World)
    (plugins : List PluginId) (req : AnalyzeRequest) (ctx : EvalContext)
    (cfg : PluginConfig) : AnalyzeResponse × List (Str × Nat) :=
  evaluateAux engine w req ctx cfg plugins 0 []

/-- Model of `ErrorResponse` (src/lib.rs). -/
structure ErrorResponse where
  errorCode : Int
  message : Str
  httpStatus : Nat
  diagnostics : Option Json

/-- The uniform 401 response of `authorization_error` (src/lib.rs). -/
def authorizationError : ErrorResponse :=
  ⟨2001, ("Unauthorized").data, 401, none⟩

/-- Model of `extract_bearer_token` (src/lib.rs, lines 669-683).  The
argument is `none` when the `authorization` header is missing or its
value is not ASCII (`to_str` fails).  Values that reach the checks are
ASCII, so the source's byte slicing at index 6 and its byte-wise
case-insensitive comparison coincide with the character model. -/
def extractBearerToken (header : Option Str) : Sum ErrorResponse Str :=
  match header with
  | none => Sum.inl authorizationError
  | some raw =>
    if raw.length < 7 ∨ eqIgnoreAsciiCase (raw.take 6) (("bearer").data) = false then
      Sum.inl authorizationError
    else
      let token := trimStr (raw.drop 6)
      if token = [] then Sum.inl authorizationError
      else Sum.inr token

/-- Model of `ensure_authorized` (src/lib.rs, lines 685-696): extract the
bearer token and, when an allowlist is configured, require membership.
`none` means the request is authorized. -/
def ensureAuthorized (header : Option Str) (allowedTokens : Option (List Str)) :
    Option ErrorResponse :=
  match extractBearerToken header with
  | Sum.inl e => some e
  | Sum.inr token =>
    match allowedTokens with
    | some tokens => if tokens.contains token then none else some authorizationError
    | none => none

/-- Model of the audit-stream record built in `analyze_handler`
(src/lib.rs, lines 838-846): `auditOnly` and `wouldBlock` are the literal
`true`s of the source, `wouldResponse` is the raw verdict, `request` the
original request. -/
structure AuditRecord where
  correlationId : Str
  auditOnly : Bool
  wouldBlock : Bool
  wouldResponse : AnalyzeResponse
  request : AnalyzeRequest

/-- Serialization of an `Option<i32>` field inside `serde_json::json!`:
`None` becomes JSON null — the key stays present. -/
def optIntJson : Option Int → Json
  | some n => Json.num n
  | none => Json.null

/-- Serialization of an `Option<String>` field inside `json!`. -/
def optStrJson : Option Str → Json
  | some s => Json.str s
  | none => Json.null

/-- Serialization of an `Option<Value>` field inside `json!`. -/
def optValJson : Option Json → Json
  | some j => j
  | none => Json.null

/-- Everything `analyze_handler` produces after the pipeline has run
(src/lib.rs, lines 782-894): the outward response, the telemetry event
payload (field list in the order written in the `json!` literal; key
membership is what the claims consult), the optional audit record, and
which metrics are bumped.  `pluginBlockTarget` is the name whose
per-detector block counter is incremented when it is registered. -/
structure HandlerOutcome where
  response : AnalyzeResponse
  event : List (Str × Json)
  auditRecord : Option AuditRecord
  blocksIncrement : Bool
  auditSuppressedIncrement : Bool
  pluginBlockTarget : Option Str

/-- Model of the tail of `analyze_handler` (src/lib.rs, lines 782-894):
the audit-only override of the outward response, the telemetry event, the
audit record for a masked block, and the metric updates.  `ts` and `ts2`
are the two wall-clock reads, `corr` the correlation id header (empty
when absent), `latencyMs` the measured latency. -/
def handlerTail (auditOnly : Bool) (raw : AnalyzeResponse)
    (timings : List (Str × Nat)) (corr ts ts2 : Str) (latencyMs : Nat)
    (req : AnalyzeRequest) : HandlerOutcome :=
  let response := if auditOnly && raw.blockAction then defaultAllow else raw
  let auditSuppressed := auditOnly && raw.blockAction
  let event : List (Str × Json) :=
    [(("schemaVersion").data, Json.num 1),
      (("ts").data, Json.str ts),
      (("correlationId").data, Json.str corr),
      (("blockAction").data, Json.bool response.blockAction),
      (("reasonCode").data, optIntJson response.reasonCode),
      (("blockedBy").data, optStrJson response.blockedBy),
      (("latencyMs").data, Json.num (Int.ofNat latencyMs)),
      (("diagnostics").data, optValJson response.diagnostics),
      (("auditSuppressed").data,
        if auditSuppressed then Json.bool true else Json.null),
      (("pluginTimings").data, Json.arr (timings.map fun nt =>
        Json.obj [(("plugin").data, Json.str nt.1),
          (("ms").data, Json.num (Int.ofNat nt.2))]))]
  let audit : Option AuditRecord :=
    if auditOnly && raw.blockAction then
      some ⟨corr, true, true, raw, req⟩
    else none
  { response := response, event := event, auditRecord := audit,
    blocksIncrement := raw.blockAction,
    auditSuppressedIncrement := auditOnly && raw.blockAction,
    pluginBlockTarget := raw.blockedBy }

theorem exfilEval_some {ctx : EvalContext} {r : AnalyzeResponse}
    (h : exfilEval ctx = some r) : ∃ pat, r = exfilResponse pat := by
  unfold exfilEval at h
  rcases hfind : exfilPatterns.find? (fun pat => containsStr ctx.pre.fullTextLower pat)
    with _ | pat
  · rw [hfind] at h
    cases h
  · rw [hfind] at h
    injection h with h
    exact ⟨pat, h.symm⟩

theorem secretsEval_some {ctx : EvalContext} {r : AnalyzeResponse}
    (h : secretsEval ctx = some r) : r = secretsResponse := by
  unfold secretsEval at h
  by_cases h1 : awsKeyIsMatch ctx.pre.fullTextLower = true
  · rw [if_pos h1] at h
    injection h with h
    exact h.symm
  · rw [if_neg h1] at h
    rcases hfind : ctx.pre.strings.find? awsKeyIsMatch with _ | s
    · rw [hfind] at h
      cases h
    · rw [hfind] at h
      injection h with h
      exact h.symm

theorem piiEvalStrings_some {cfg : PluginConfig} :
    ∀ {ss : List Str} {r : AnalyzeResponse}, piiEvalStrings cfg ss = some r →
      ∃ code, r = piiResponse code := by
  intro ss
  induction ss with
  | nil =>
    intro r h
    cases h
  | cons s rest ih =>
    intro r h
    unfold piiEvalStrings at h
    by_cases h1 : piiBuiltin cfg s = true
    · rw [if_pos h1] at h
      injection h with h
      exact ⟨_, h.symm⟩
    rw [if_neg h1] at h
    by_cases h2 : cfg.piiKeywords ≠ [] ∧ acIsMatch cfg.piiKeywords s = true
    · rw [if_pos h2] at h
      injection h with h
      exact ⟨_, h.symm⟩
    · rw [if_neg h2] at h
      exact ih h

theorem piiEval_some {ctx : EvalContext} {cfg : PluginConfig}
    {r : AnalyzeResponse} (h : piiEval ctx cfg = some r) :
    ∃ code, r = piiResponse code := by
  unfold piiEval at h
  by_cases h1 : piiBuiltin cfg ctx.pre.fullTextLower = true
  · rw [if_pos h1] at h
    injection h with h
    exact ⟨_, h.symm⟩
  rw [if_neg h1] at h
  by_cases h2 : cfg.piiKeywords ≠ [] ∧ acIsMatch cfg.piiKeywords ctx.pre.fullTextLower = true
  · rw [if_pos h2] at h
    injection h with h
    exact ⟨_, h.symm⟩
  · rw [if_neg h2] at h
    exact piiEvalStrings_some h

theorem emailBccEval_some {req : AnalyzeRequest} {cfg : PluginConfig}
    {r : AnalyzeResponse} (h : emailBccEval req cfg = some r) :
    ∃ addr, r = emailBccResponse addr := by
  unfold emailBccEval at h
  split at h
  · cases h
  · split at h
    · rename_i s
      split at h
      · split at h
        · injection h with h
          exact ⟨_, h.symm⟩
        · cases h
      · cases h
    · cases h

theorem domainBlockEval_some {ctx : EvalContext} {cfg : PluginConfig}
    {r : AnalyzeResponse} (h : domainBlockEval ctx cfg = some r) :
    ∃ dom, r = domainBlockResponse dom := by
  unfold domainBlockEval at h
  split at h
  · injection h with h
    exact ⟨_, h.symm⟩
  · split at h
    · injection h with h
      exact ⟨_, h.symm⟩
    · cases h

theorem policyPackEval_some {engine : RegexEngine} {req : AnalyzeRequest}
    {ctx : EvalContext} :
    ∀ {rules : List CompiledRule} {r : AnalyzeResponse},
      policyPackEval engine req ctx rules = some r →
      ∃ rule, r = policyResponse rule := by
  intro rules
  induction rules with
  | nil =>
    intro r h
    cases h
  | cons rule rest ih =>
    intro r h
    unfold policyPackEval at h
    split at h
    · split at h
      · injection h with h
        exact ⟨_, h.symm⟩
      · exact ih h
    · exact ih h

theorem externalEval_some {d : ExternalHttpDefinition} {res : HttpResult}
    {r : AnalyzeResponse} (h : externalEval d res = some r) :
    r.blockAction = true ∧ r.blockedBy = some d.name := by
  cases res with
  | netErr =>
    unfold externalEval at h
    dsimp only at h
    by_cases hf : (!d.failOpen) = true
    · rw [if_pos hf] at h
      injection h with h
      rw [← h]
      exact ⟨rfl, rfl⟩
    · rw [if_neg hf] at h
      cases h
  | readErr st =>
    unfold externalEval at h
    dsimp only at h
    by_cases hf : (!d.failOpen) = true
    · rw [if_pos hf] at h
      injection h with h
      rw [← h]
      exact ⟨rfl, rfl⟩
    · rw [if_neg hf] at h
      cases h
  | parseErr st =>
    unfold externalEval at h
    dsimp only at h
    by_cases hf : (!d.failOpen) = true
    · rw [if_pos hf] at h
      injection h with h
      rw [← h]
      exact ⟨rfl, rfl⟩
    · rw [if_neg hf] at h
      cases h
  | parsed st json =>
    unfold externalEval at h
    dsimp only at h
    rcases hx : extractBlock d json with _ | b
    · rw [hx] at h
      cases h
    · rw [hx] at h
      cases b <;> dsimp only at h
      · rw [if_neg (by simp)] at h
        cases h
      · rw [if_pos rfl] at h
        injection h with h
        rw [← h]
        exact ⟨rfl, rfl⟩

theorem pluginEval_some_shape {engine : RegexEngine} {w : World}
    {p : PluginId} {req : AnalyzeRequest} {ctx : EvalContext}
    {cfg : PluginConfig} {r : AnalyzeResponse}
    (h : pluginEval engine w p req ctx cfg = some r) :
    r.blockAction = true ∧ r.blockedBy = some (pluginName p) := by
  match p with
  | PluginId.exfil =>
    obtain ⟨pat, rfl⟩ := exfilEval_some h
    exact ⟨rfl, rfl⟩
  | PluginId.secrets =>
    have := secretsEval_some h
    subst this
    exact ⟨rfl, rfl⟩
  | PluginId.pii =>
    obtain ⟨code, rfl⟩ := piiEval_some h
    exact ⟨rfl, rfl⟩
  | PluginId.emailBcc =>
    obtain ⟨addr, rfl⟩ := emailBccEval_some h
    exact ⟨rfl, rfl⟩
  | PluginId.domainBlock =>
    obtain ⟨dom, rfl⟩ := domainBlockEval_some h
    exact ⟨rfl, rfl⟩
  | PluginId.policyPack rules =>
    obtain ⟨rule, rfl⟩ := policyPackEval_some h
    exact ⟨rfl, rfl⟩
  | PluginId.externalHttp d =>
    exact externalEval_some h

theorem getLast_append_singleton {α : Type} (l : List α) (a : α) :
    (l ++ [a]).getLast? = some a := by
  simp [List.getLast?_concat]

theorem evaluateAux_block (engine : RegexEngine) (w : World)
    (req : AnalyzeRequest) (ctx : EvalContext) (cfg : PluginConfig) :
    ∀ (plugins : List PluginId) (i : Nat) (acc : List (Str × Nat))
      (resp : AnalyzeResponse) (timings : List (Str × Nat)),
      evaluateAux engine w req ctx cfg plugins i acc = (resp, timings) →
      resp.blockAction = true →
      ∃ nm ms, timings.getLast? = some (nm, ms) ∧ resp.blockedBy = some nm := by
  intro plugins
  induction plugins with
  | nil =>
    intro i acc resp timings h hb
    unfold evaluateAux at h
    injection h with h1 h2
    rw [← h1] at hb
    exact absurd hb (by simp [defaultAllow])
  | cons p rest ih =>
    intro i acc resp timings h hb
    unfold evaluateAux at h
    by_cases hd : w.deadlineExceeded i = true
    · rw [if_pos hd] at h
      injection h with h1 h2
      rw [← h1] at hb
      exact absurd hb (by simp [defaultAllow])
    rw [if_neg hd] at h
    rcases he : pluginEval engine w p req ctx cfg with _ | r
    · rw [he] at h
      dsimp only at h
      exact ih _ _ _ _ h hb
    · rw [he] at h
      dsimp only at h
      by_cases hb2 : r.blockAction = true
      · rw [if_pos hb2] at h
        injection h with h1 h2
        obtain ⟨hba, hbb⟩ := pluginEval_some_shape he
        have hnn : r.blockedBy.isNone = false := by
          rw [hbb]
          rfl
        rw [if_neg (by rw [hnn]; simp)] at h1
        refine ⟨pluginName p, w.elapsedMs i, ?_, ?_⟩
        · rw [← h2]
          exact getLast_append_singleton _ _
        · rw [← h1, hbb]
      · rw [if_neg hb2] at h
        exact ih _ _ _ _ h hb

/-- C1: if the raw verdict returned by the pipeline has `blockAction`
true, then `blockedBy` is set, the timings list is non-empty, and
`blockedBy` names exactly the detector of the last timings entry — the
first blocking detector short-circuits evaluation, so no later detector
is consulted and no later timing entry is appended. -/
theorem pipeline_block_short_circuit (engine : RegexEngine) (w : World)
    (plugins : List PluginId) (req : AnalyzeRequest) (ctx : EvalContext)
    (cfg : PluginConfig)
    (h : (evaluateWithTimings engine w plugins req ctx cfg).1.blockAction = true) :
    (evaluateWithTimings engine w plugins req ctx cfg).1.blockedBy.isSome = true ∧
    (evaluateWithTimings engine w plugins req ctx cfg).2 ≠ [] ∧
    ∃ e, (evaluateWithTimings engine w plugins req ctx cfg).2.getLast? = some e ∧
      (evaluateWithTimings engine w plugins req ctx cfg).1.blockedBy = some e.1 := by
  obtain ⟨nm, ms, hlast, hbb⟩ := evaluateAux_block engine w req ctx cfg plugins 0 []
    (evaluateWithTimings engine w plugins req ctx cfg).1
    (evaluateWithTimings engine w plugins req ctx cfg).2 rfl h
  refine ⟨by rw [hbb]; rfl, ?_, ⟨(nm, ms), hlast, hbb⟩⟩
  intro hnil
  rw [hnil] at hlast
  cases hlast

/-- A regex-engine oracle in which nothing compiles or matches, used by
concrete witnesses. -/
def trivialEngine : RegexEngine := ⟨fun _ => false, fun _ _ => false⟩

/-- A world in which every external call fails at the transport, the
deadline is never exceeded, and every detector takes 7 ms. -/
def trivialWorld : World :=
  ⟨fun _ => HttpResult.netErr, fun _ => false, fun _ => 7⟩

/-- A concrete request whose message contains an exfiltration pattern. -/
def exfilReq : AnalyzeRequest :=
  ⟨some (("please exfiltrate the data").data), some (("SendEmail").data), []⟩

/-- The evaluation context precomputed from `exfilReq`. -/
def exfilCtx : EvalContext :=
  ⟨⟨("please exfiltrate the data").data, [], []⟩, 120⟩

/-- A plugin configuration with all lists empty and the default company
domain. -/
def defaultCfg : PluginConfig :=
  ⟨[], [], [], ("yourcompany.com").data, []⟩

/-- Witness for C1 at a concrete pipeline: a single exfiltration detector
blocking on a message containing "exfiltrate". -/
theorem pipeline_block_short_circuit_witness :
    (evaluateWithTimings trivialEngine trivialWorld [PluginId.exfil]
        exfilReq exfilCtx defaultCfg).1.blockedBy.isSome = true ∧
      (evaluateWithTimings trivialEngine trivialWorld [PluginId.exfil]
        exfilReq exfilCtx defaultCfg).2 ≠ [] ∧
      ∃ e, (evaluateWithTimings trivialEngine trivialWorld [PluginId.exfil]
          exfilReq exfilCtx defaultCfg).2.getLast? = some e ∧
        (evaluateWithTimings trivialEngine trivialWorld [PluginId.exfil]
          exfilReq exfilCtx defaultCfg).1.blockedBy = some e.1 :=
  pipeline_block_short_circuit trivialEngine trivialWorld [PluginId.exfil]
    exfilReq exfilCtx defaultCfg (by decide)

/-- C2: under audit-only mode a raw blocking verdict is masked — the
outward response is the default allow verdict with every optional field
absent — while the raw verdict still feeds the audit record and the
metrics; when the raw verdict allows, the outward response is the raw
verdict itself. -/
theorem audit_only_masks_block (auditOnly : Bool) (raw : AnalyzeResponse)
    (timings : List (Str × Nat)) (corr ts ts2 : Str) (latencyMs : Nat)
    (req : AnalyzeRequest) :
    (auditOnly = true → raw.blockAction = true →
      (handlerTail auditOnly raw timings corr ts ts2 latencyMs req).response =
          (⟨false, none, none, none, none⟩ : AnalyzeResponse) ∧
        (handlerTail auditOnly raw timings corr ts ts2 latencyMs req).auditRecord =
          some ⟨corr, true, true, raw, req⟩ ∧
        (handlerTail auditOnly raw timings corr ts ts2 latencyMs req).blocksIncrement = true ∧
        (handlerTail auditOnly raw timings corr ts ts2 latencyMs req).auditSuppressedIncrement = true ∧
        (handlerTail auditOnly raw timings corr ts ts2 latencyMs req).pluginBlockTarget =
          raw.blockedBy)
    ∧ (raw.blockAction = false →
      (handlerTail auditOnly raw timings corr ts ts2 latencyMs req).response = raw ∧
        (handlerTail auditOnly raw timings corr ts ts2 latencyMs req).auditRecord = none ∧
        (handlerTail auditOnly raw timings corr ts ts2 latencyMs req).blocksIncrement = false) := by
  constructor
  · intro ha hb
    unfold handlerTail
    rw [ha, hb]
    exact ⟨rfl, rfl, rfl, rfl, rfl⟩
  · intro hb
    unfold handlerTail
    rw [hb]
    exact ⟨by simp, by simp, rfl⟩

/-- Witness for C2: a blocked secrets verdict under audit-only is masked,
and an allowing raw verdict passes through unchanged. -/
theorem audit_only_masks_block_witness :
    ((handlerTail true secretsResponse [((("secrets").data), 7)] [] [] [] 12
        exfilReq).response = (⟨false, none, none, none, none⟩ : AnalyzeResponse) ∧
      (handlerTail true secretsResponse [((("secrets").data), 7)] [] [] [] 12
        exfilReq).auditRecord = some ⟨[], true, true, secretsResponse, exfilReq⟩ ∧
      (handlerTail true secretsResponse [((("secrets").data), 7)] [] [] [] 12
        exfilReq).blocksIncrement = true ∧
      (handlerTail true secretsResponse [((("secrets").data), 7)] [] [] [] 12
        exfilReq).auditSuppressedIncrement = true ∧
      (handlerTail true secretsResponse [((("secrets").data), 7)] [] [] [] 12
        exfilReq).pluginBlockTarget = secretsResponse.blockedBy)
    ∧ (handlerTail true defaultAllow [] [] [] [] 3 exfilReq).response = defaultAllow :=
  ⟨(audit_only_masks_block true secretsResponse [((("secrets").data), 7)] [] [] [] 12
      exfilReq).1 rfl rfl,
    ((audit_only_masks_block true defaultAllow [] [] [] [] 3 exfilReq).2 rfl).1⟩

/-- Amended C6: the telemetry event always carries the `auditSuppressed`
key — with value `true` exactly when audit-only masked a block, and with
value JSON null otherwise (the `json!` literal serializes the `None` of
an `Option<bool>` as null rather than omitting the key); the value is
never `false`. -/
theorem audit_suppressed_field (auditOnly : Bool) (raw : AnalyzeResponse)
    (timings : List (Str × Nat)) (corr ts ts2 : Str) (latencyMs : Nat)
    (req : AnalyzeRequest) :
    mapGet (handlerTail auditOnly raw timings corr ts ts2 latencyMs req).event
        (("auditSuppressed").data) =
      some (if auditOnly && raw.blockAction then Json.bool true else Json.null) := by
  rfl

/-- Counterexample to C6 as stated: for a request that audit-only did not
mask (audit-only off, raw verdict allowing), the emitted event still
contains the `auditSuppressed` key, with value JSON null — the claim says
the field is omitted and never present with value null. -/
theorem audit_suppressed_counterexample :
    mapGet (handlerTail false defaultAllow [] [] [] [] 5 exfilReq).event
        (("auditSuppressed").data) = some Json.null ∧
      (false && defaultAllow.blockAction) = false :=
  ⟨rfl, rfl⟩

/-- Counterexample to C3 as stated: an `Authorization` value whose scheme
prefix is not followed by a space — `"bearerXYZ"` — is accepted with token
`"XYZ"` instead of being rejected with 401/2001. -/
theorem bearer_no_space_counterexample :
    extractBearerToken (some (("bearerXYZ").data)) = Sum.inr (("XYZ").data) ∧
      (("bearerXYZ").data).get? 6 ≠ some ' ' :=
  ⟨rfl, by decide⟩

/-- Amended C3: bearer-token extraction accepts a header value exactly
when it is at least 7 characters long, its first six characters equal
"bearer" ASCII-case-insensitively, and the remainder after those six
characters (no space required) trims to a non-empty token, which is the
returned token; every rejection — including a missing header — is the
401 response with errorCode 2001. -/
theorem bearer_token_extraction (header : Option Str) :
    (∀ t, extractBearerToken header = Sum.inr t →
      ∃ raw, header = some raw ∧ 7 ≤ raw.length ∧
        eqIgnoreAsciiCase (raw.take 6) (("bearer").data) = true ∧
        t = trimStr (raw.drop 6) ∧ t ≠ [])
    ∧ (∀ raw, header = some raw → 7 ≤ raw.length →
        eqIgnoreAsciiCase (raw.take 6) (("bearer").data) = true →
        trimStr (raw.drop 6) ≠ [] →
        extractBearerToken header = Sum.inr (trimStr (raw.drop 6)))
    ∧ (∀ e, extractBearerToken header = Sum.inl e → e = authorizationError) := by
  refine ⟨?_, ?_, ?_⟩
  · intro t h
    match header with
    | none =>
      unfold extractBearerToken at h
      dsimp only at h
      cases h
    | some raw =>
      unfold extractBearerToken at h
      dsimp only at h
      by_cases h1 : raw.length < 7 ∨ eqIgnoreAsciiCase (raw.take 6) (("bearer").data) = false
      · rw [if_pos h1] at h
        cases h
      · rw [if_neg h1] at h
        push_neg at h1
        by_cases h2 : trimStr (raw.drop 6) = []
        · rw [if_pos h2] at h
          cases h
        · rw [if_neg h2] at h
          injection h with h
          exact ⟨raw, rfl, by omega, Bool.eq_true_of_ne_false h1.2, h.symm, h ▸ h2⟩
  · intro raw hh hlen hcase hne
    subst hh
    unfold extractBearerToken
    dsimp only
    rw [if_neg (by push_neg; exact ⟨by omega, by simp [hcase]⟩)]
    rw [if_neg hne]
  · intro e h
    match header with
    | none =>
      unfold extractBearerToken at h
      dsimp only at h
      injection h with h
      exact h.symm
    | some raw =>
      unfold extractBearerToken at h
      dsimp only at h
      by_cases h1 : raw.length < 7 ∨ eqIgnoreAsciiCase (raw.take 6) (("bearer").data) = false
      · rw [if_pos h1] at h
        injection h with h
        exact h.symm
      · rw [if_neg h1] at h
        by_cases h2 : trimStr (raw.drop 6) = []
        · rw [if_pos h2] at h
          injection h with h
          exact h.symm
        · rw [if_neg h2] at h
          cases h

/-- Witness for the amended C3: a well-formed header is accepted with its
trimmed token, and a malformed one is rejected with the 401/2001 error. -/
theorem bearer_token_extraction_witness :
    extractBearerToken (some (("Bearer tok123").data)) =
        Sum.inr (trimStr ((("Bearer tok123").data).drop 6)) ∧
      ∀ e, extractBearerToken (some (("nope").data)) = Sum.inl e →
        e = authorizationError :=
  ⟨(bearer_token_extraction (some (("Bearer tok123").data))).2.1
      (("Bearer tok123").data) rfl (by decide) (by decide) (by decide),
    (bearer_token_extraction (some (("nope").data))).2.2⟩

theorem extractBlock_root (d : ExternalHttpDefinition)
    (hf : d.blockField = ("/").data) (v : Json) :
    extractBlock d v =
      if d.nonEmptyPointerBlocks then
        match v with
        | Json.arr a => some (!a.isEmpty)
        | Json.obj o => some (!o.isEmpty)
        | Json.bool b => some b
        | _ => none
      else none := by
  unfold extractBlock
  rw [hf]
  rw [if_neg (by decide), if_neg (by decide), if_pos rfl]

/-- C7: with `blockField` set to `/` and `nonEmptyPointerBlocks` on, a
parsed response whose root is a non-empty array or non-empty object
blocks with the configured reason code and the detector's configured name
as `blockedBy`; a root boolean is the signal as-is; an empty array or
object allows; with `nonEmptyPointerBlocks` off the signal is absent and
the detector allows. -/
theorem external_root_nonempty (d : ExternalHttpDefinition) (status : Nat)
    (v : Json) (hf : d.blockField = ("/").data) :
    (d.nonEmptyPointerBlocks = true →
      (∀ x xs, v = Json.arr (x :: xs) →
        externalEval d (HttpResult.parsed status v) =
          some (externalBlockResponse d (("External policy block").data)
            (externalDiagStatus (("block").data) status)))
      ∧ (∀ kv fs, v = Json.obj (kv :: fs) →
        externalEval d (HttpResult.parsed status v) =
          some (externalBlockResponse d (("External policy block").data)
            (externalDiagStatus (("block").data) status)))
      ∧ (∀ b, v = Json.bool b →
        externalEval d (HttpResult.parsed status v) =
          if b then
            some (externalBlockResponse d (("External policy block").data)
              (externalDiagStatus (("block").data) status))
          else none)
      ∧ (v = Json.arr [] → externalEval d (HttpResult.parsed status v) = none)
      ∧ (v = Json.obj [] → externalEval d (HttpResult.parsed status v) = none))
    ∧ (d.nonEmptyPointerBlocks = false →
      externalEval d (HttpResult.parsed status v) = none) := by
  constructor
  · intro hne
    refine ⟨?_, ?_, ?_, ?_, ?_⟩
    · intro x xs hv
      subst hv
      unfold externalEval
      dsimp only
      rw [extractBlock_root d hf, if_pos hne]
      try rfl
    · intro kv fs hv
      subst hv
      unfold externalEval
      dsimp only
      rw [extractBlock_root d hf, if_pos hne]
      try rfl
    · intro b hv
      subst hv
      unfold externalEval
      dsimp only
      rw [extractBlock_root d hf, if_pos hne]
      try cases b <;> rfl
    · intro hv
      subst hv
      unfold externalEval
      dsimp only
      rw [extractBlock_root d hf, if_pos hne]
      try rfl
    · intro hv
      subst hv
      unfold externalEval
      dsimp only
      rw [extractBlock_root d hf, if_pos hne]
      try rfl
  · intro hne
    unfold externalEval
    dsimp only
    rw [extractBlock_root d hf, if_neg (by simp [hne])]

/-- The external definition of the spec's end-to-end scenario 6:
`blockField:"/"`, `nonEmptyPointerBlocks:true`, `reasonCode:860`. -/
def extRootDef : ExternalHttpDefinition :=
  ⟨("external_pii").data, ("http://localhost:9000/check").data, none, 500,
    none, ("/").data, 860, none, true, true⟩

/-- Witness for C7: the service returning `[{"entity":"EMAIL"}]` yields a
block with reason code 860 and the detector's name. -/
theorem external_root_nonempty_witness :
    externalEval extRootDef (HttpResult.parsed 200
        (Json.arr [Json.obj [(("entity").data, Json.str (("EMAIL").data))]])) =
      some (externalBlockResponse extRootDef (("External policy block").data)
        (externalDiagStatus (("block").data) 200)) ∧
    (externalBlockResponse extRootDef (("External policy block").data)
      (externalDiagStatus (("block").data) 200)).reasonCode = some 860 ∧
    (externalBlockResponse extRootDef (("External policy block").data)
      (externalDiagStatus (("block").data) 200)).blockedBy =
        some (("external_pii").data) :=
  ⟨((external_root_nonempty extRootDef 200 _ rfl).1 rfl).1 _ _ rfl, rfl, rfl⟩

/-- C8: on a transport failure, a body-read failure, or a JSON parse
failure, a fail-open detector allows; a fail-closed one blocks with the
configured reason code, the detector's name, the configured reason or the
kind-specific default, and diagnostics whose `code` names the failure
kind. -/
theorem external_failure_modes (d : ExternalHttpDefinition) (st st2 : Nat) :
    (d.failOpen = true →
      externalEval d HttpResult.netErr = none ∧
      externalEval d (HttpResult.readErr st) = none ∧
      externalEval d (HttpResult.parseErr st2) = none)
    ∧ (d.failOpen = false →
      externalEval d HttpResult.netErr =
        some (externalBlockResponse d (("External HTTP error").data)
          (externalDiag (("network_error").data))) ∧
      externalEval d (HttpResult.readErr st) =
        some (externalBlockResponse d (("External HTTP read error").data)
          (externalDiag (("read_error").data))) ∧
      externalEval d (HttpResult.parseErr st2) =
        some (externalBlockResponse d (("External HTTP parse error").data)
          (externalDiagStatus (("parse_error").data) st2)) ∧
      (externalDiag (("network_error").data)).getKey (("code").data) =
        some (Json.str (("network_error").data)) ∧
      (externalDiag (("read_error").data)).getKey (("code").data) =
        some (Json.str (("read_error").data)) ∧
      (externalDiagStatus (("parse_error").data) st2).getKey (("code").data) =
        some (Json.str (("parse_error").data))) := by
  constructor
  · intro hf
    refine ⟨?_, ?_, ?_⟩ <;> simp [externalEval, hf]
  · intro hf
    refine ⟨?_, ?_, ?_, rfl, rfl, rfl⟩ <;> simp [externalEval, hf]

/-- A fail-closed external definition used by the C8 witness. -/
def extClosedDef : ExternalHttpDefinition :=
  ⟨("external_guard").data, ("http://localhost:9000/guard").data, none, 500,
    none, ("block").data, 820, none, false, false⟩

/-- Witness for C8: the fail-closed detector blocks on each failure kind
with the kind-specific default reason and diagnostics code. -/
theorem external_failure_modes_witness :
    externalEval extClosedDef HttpResult.netErr =
      some (externalBlockResponse extClosedDef (("External HTTP error").data)
        (externalDiag (("network_error").data))) ∧
    externalEval extClosedDef (HttpResult.readErr 502) =
      some (externalBlockResponse extClosedDef (("External HTTP read error").data)
        (externalDiag (("read_error").data))) ∧
    externalEval extClosedDef (HttpResult.parseErr 200) =
      some (externalBlockResponse extClosedDef (("External HTTP parse error").data)
        (externalDiagStatus (("parse_error").data) 200)) ∧
    (externalDiag (("network_error").data)).getKey (("code").data) =
      some (Json.str (("network_error").data)) ∧
    (externalDiag (("read_error").data)).getKey (("code").data) =
      some (Json.str (("read_error").data)) ∧
    (externalDiagStatus (("parse_error").data) 200).getKey (("code").data) =
      some (Json.str (("parse_error").data)) :=
  (external_failure_modes extClosedDef 502 200).2 rfl

theorem pipelineNew_skip_policy_pack (engine : RegexEngine)
    (cfg : PluginConfig) (hpol : cfg.policies = []) :
    ∀ o1 o2, pipelineNew engine (o1 ++ ("policy_pack").data :: o2) cfg =
      pipelineNew engine (o1 ++ o2) cfg := by
  have hempty : cfg.policies.isEmpty = true := by
    rw [hpol]
    rfl
  intro o1
  induction o1 with
  | nil =>
    intro o2
    rw [List.nil_append]
    show pipelineNew engine (("policy_pack").data :: o2) cfg =
      pipelineNew engine o2 cfg
    conv_lhs => unfold pipelineNew
    dsimp only
    rw [if_neg (by decide), if_neg (by decide), if_neg (by decide),
      if_neg (by decide), if_neg (by decide), if_pos rfl, if_pos hempty]
  | cons n o1t ih =>
    intro o2
    show pipelineNew engine (n :: (o1t ++ ("policy_pack").data :: o2)) cfg =
      pipelineNew engine (n :: (o1t ++ o2)) cfg
    unfold pipelineNew
    dsimp only
    rw [ih o2]

theorem pipelineNew_no_policy_pack (engine : RegexEngine)
    (cfg : PluginConfig) (hpol : cfg.policies = []) :
    ∀ order p, p ∈ (pipelineNew engine order cfg).1 →
      pluginName p ≠ ("policy_pack").data := by
  have hempty : cfg.policies.isEmpty = true := by
    rw [hpol]
    rfl
  intro order
  induction order with
  | nil =>
    intro p hp
    simp [pipelineNew] at hp
  | cons n rest ih =>
    intro p hp
    unfold pipelineNew at hp
    dsimp only at hp
    by_cases h1 : n = ("exfil").data
    · rw [if_pos h1] at hp
      rcases List.mem_cons.mp hp with hh | ht
      · subst hh
        decide
      · exact ih p ht
    rw [if_neg h1] at hp
    by_cases h2 : n = ("secrets").data
    · rw [if_pos h2] at hp
      rcases List.mem_cons.mp hp with hh | ht
      · subst hh
        decide
      · exact ih p ht
    rw [if_neg h2] at hp
    by_cases h3 : n = ("pii").data
    · rw [if_pos h3] at hp
      rcases List.mem_cons.mp hp with hh | ht
      · subst hh
        decide
      · exact ih p ht
    rw [if_neg h3] at hp
    by_cases h4 : n = ("email_bcc").data
    · rw [if_pos h4] at hp
      rcases List.mem_cons.mp hp with hh | ht
      · subst hh
        decide
      · exact ih p ht
    rw [if_neg h4] at hp
    by_cases h5 : n = ("domain_block").data
    · rw [if_pos h5] at hp
      rcases List.mem_cons.mp hp with hh | ht
      · subst hh
        decide
      · exact ih p ht
    rw [if_neg h5] at hp
    by_cases h6 : n = ("policy_pack").data
    · rw [if_pos h6, if_pos hempty] at hp
      exact ih p hp
    rw [if_neg h6] at hp
    by_cases h7 : (("external_").data).isPrefixOf n = true
    · rw [if_pos h7] at hp
      rcases hfind : cfg.externalHttp.find? (fun d => d.name == n) with _ | d
      · rw [hfind] at hp
        exact ih p hp
      · rw [hfind] at hp
        rcases List.mem_cons.mp hp with hh | ht
        · subst hh
          have hdn : d.name = n := by
            have := List.find?_some hfind
            exact eq_of_beq this
          intro hcontra
          rw [show pluginName (PluginId.externalHttp d) = d.name from rfl, hdn] at hcontra
          rw [hcontra] at h7
          exact absurd h7 (by decide)
        · exact ih p ht
    · rw [if_neg h7] at hp
      exact ih p hp

theorem evaluateAux_timings_names (engine : RegexEngine) (w : World)
    (req : AnalyzeRequest) (ctx : EvalContext) (cfg : PluginConfig) :
    ∀ (plugins : List PluginId) (i : Nat) (acc : List (Str × Nat))
      (resp : AnalyzeResponse) (timings : List (Str × Nat)),
      evaluateAux engine w req ctx cfg plugins i acc = (resp, timings) →
      ∀ e ∈ timings, e ∈ acc ∨ ∃ p ∈ plugins, e.1 = pluginName p := by
  intro plugins
  induction plugins with
  | nil =>
    intro i acc resp timings h e he
    unfold evaluateAux at h
    injection h with h1 h2
    rw [← h2] at he
    exact Or.inl he
  | cons p rest ih =>
    intro i acc resp timings h e he
    unfold evaluateAux at h
    by_cases hd : w.deadlineExceeded i = true
    · rw [if_pos hd] at h
      injection h with h1 h2
      rw [← h2] at he
      exact Or.inl he
    rw [if_neg hd] at h
    rcases he2 : pluginEval engine w p req ctx cfg with _ | r
    · rw [he2] at h
      dsimp only at h
      rcases ih _ _ _ _ h e he with hacc | ⟨q, hq, hqe⟩
      · rcases List.mem_append.mp hacc with h3 | h3
        · exact Or.inl h3
        · rcases List.mem_singleton.mp h3 with rfl
          exact Or.inr ⟨p, List.mem_cons_self _ _, rfl⟩
      · exact Or.inr ⟨q, List.mem_cons_of_mem _ hq, hqe⟩
    · rw [he2] at h
      dsimp only at h
      by_cases hb : r.blockAction = true
      · rw [if_pos hb] at h
        injection h with h1 h2
        rw [← h2] at he
        rcases List.mem_append.mp he with h3 | h3
        · exact Or.inl h3
        · rcases List.mem_singleton.mp h3 with rfl
          exact Or.inr ⟨p, List.mem_cons_self _ _, rfl⟩
      · rw [if_neg hb] at h
        rcases ih _ _ _ _ h e he with hacc | ⟨q, hq, hqe⟩
        · rcases List.mem_append.mp hacc with h3 | h3
          · exact Or.inl h3
          · rcases List.mem_singleton.mp h3 with rfl
            exact Or.inr ⟨p, List.mem_cons_self _ _, rfl⟩
        · exact Or.inr ⟨q, List.mem_cons_of_mem _ hq, hqe⟩

theorem evaluateAux_blockedBy_mem (engine : RegexEngine) (w : World)
    (req : AnalyzeRequest) (ctx : EvalContext) (cfg : PluginConfig) :
    ∀ (plugins : List PluginId) (i : Nat) (acc : List (Str × Nat))
      (resp : AnalyzeResponse) (timings : List (Str × Nat)),
      evaluateAux engine w req ctx cfg plugins i acc = (resp, timings) →
      resp.blockedBy = none ∨
        ∃ p ∈ plugins, resp.blockedBy = some (pluginName p) := by
  intro plugins
  induction plugins with
  | nil =>
    intro i acc resp timings h
    unfold evaluateAux at h
    injection h with h1 h2
    rw [← h1]
    exact Or.inl rfl
  | cons p rest ih =>
    intro i acc resp timings h
    unfold evaluateAux at h
    by_cases hd : w.deadlineExceeded i = true
    · rw [if_pos hd] at h
      injection h with h1 h2
      rw [← h1]
      exact Or.inl rfl
    rw [if_neg hd] at h
    rcases he2 : pluginEval engine w p req ctx cfg with _ | r
    · rw [he2] at h
      dsimp only at h
      rcases ih _ _ _ _ h with h3 | ⟨q, hq, hqe⟩
      · exact Or.inl h3
      · exact Or.inr ⟨q, List.mem_cons_of_mem _ hq, hqe⟩
    · rw [he2] at h
      dsimp only at h
      by_cases hb : r.blockAction = true
      · rw [if_pos hb] at h
        injection h with h1 h2
        obtain ⟨hba, hbb⟩ := pluginEval_some_shape he2
        have hnn : r.blockedBy.isNone = false := by
          rw [hbb]
          rfl
        rw [if_neg (by rw [hnn]; simp)] at h1
        rw [← h1]
        exact Or.inr ⟨p, List.mem_cons_self _ _, hbb⟩
      · rw [if_neg hb] at h
        rcases ih _ _ _ _ h with h3 | ⟨q, hq, hqe⟩
        · exact Or.inl h3
        · exact Or.inr ⟨q, List.mem_cons_of_mem _ hq, hqe⟩

/-- C10: with an empty `policies` list, a `policy_pack` entry in the
detector order contributes nothing: the constructed pipeline (detectors
and warnings alike) equals the one built without the entry, no
constructed detector is named `policy_pack`, evaluation never produces a
timing entry named `policy_pack` and never reports `policy_pack` as the
blocker — and, unlike an unknown identifier, the dropped name produces no
warning (an unknown identifier produces one). -/
theorem policy_pack_empty_inert (engine : RegexEngine) (cfg : PluginConfig)
    (hpol : cfg.policies = []) (o1 o2 : List Str) :
    pipelineNew engine (o1 ++ ("policy_pack").data :: o2) cfg =
        pipelineNew engine (o1 ++ o2) cfg
    ∧ (∀ p ∈ (pipelineNew engine (o1 ++ ("policy_pack").data :: o2) cfg).1,
        pluginName p ≠ ("policy_pack").data)
    ∧ (∀ (w : World) (req : AnalyzeRequest) (ctx : EvalContext)
        (resp : AnalyzeResponse) (timings : List (Str × Nat)),
        evaluateWithTimings engine w
            (pipelineNew engine (o1 ++ ("policy_pack").data :: o2) cfg).1
            req ctx cfg = (resp, timings) →
        (∀ e ∈ timings, e.1 ≠ ("policy_pack").data) ∧
          resp.blockedBy ≠ some (("policy_pack").data))
    ∧ (pipelineNew engine [("zzz_unknown").data] cfg).2 =
        [LogWarning.unknownPlugin (("zzz_unknown").data)] := by
  refine ⟨pipelineNew_skip_policy_pack engine cfg hpol o1 o2, ?_, ?_, ?_⟩
  · intro p hp
    exact pipelineNew_no_policy_pack engine cfg hpol _ p hp
  · intro w req ctx resp timings h
    constructor
    · intro e he
      rcases evaluateAux_timings_names engine w req ctx cfg _ 0 [] resp timings h e he with
        hacc | ⟨q, hq, hqe⟩
      · cases hacc
      · rw [hqe]
        exact pipelineNew_no_policy_pack engine cfg hpol _ q hq
    · rcases evaluateAux_blockedBy_mem engine w req ctx cfg _ 0 [] resp timings h with
        hn | ⟨q, hq, hqe⟩
      · rw [hn]
        intro hc
        cases hc
      · rw [hqe]
        intro hc
        injection hc with hc
        exact pipelineNew_no_policy_pack engine cfg hpol _ q hq hc
  · rfl

/-- Witness for C10 at a concrete order and the empty-policies default
configuration. -/
theorem policy_pack_empty_inert_witness :
    pipelineNew trivialEngine
        ([("exfil").data] ++ ("policy_pack").data :: [("secrets").data]) defaultCfg =
        pipelineNew trivialEngine ([("exfil").data] ++ [("secrets").data]) defaultCfg
    ∧ (∀ p ∈ (pipelineNew trivialEngine
        ([("exfil").data] ++ ("policy_pack").data :: [("secrets").data]) defaultCfg).1,
        pluginName p ≠ ("policy_pack").data)
    ∧ (∀ (w : World) (req : AnalyzeRequest) (ctx : EvalContext)
        (resp : AnalyzeResponse) (timings : List (Str × Nat)),
        evaluateWithTimings trivialEngine w
            (pipelineNew trivialEngine
              ([("exfil").data] ++ ("policy_pack").data :: [("secrets").data])
              defaultCfg).1 req ctx defaultCfg = (resp, timings) →
        (∀ e ∈ timings, e.1 ≠ ("policy_pack").data) ∧
          resp.blockedBy ≠ some (("policy_pack").data))
    ∧ (pipelineNew trivialEngine [("zzz_unknown").data] defaultCfg).2 =
        [LogWarning.unknownPlugin (("zzz_unknown").data)] :=
  policy_pack_empty_inert trivialEngine defaultCfg rfl [("exfil").data]
    [("secrets").data]

/- ### C4 : the domain-block boundary rule -/

theorem occursAt_bound {text dom : Str} {i : Nat} (hdom : dom ≠ [])
    (h : occursAt text dom i = true) : i + dom.length ≤ text.length := by
  unfold occursAt at h
  have h1 := (List.isPrefixOf_iff_prefix.mp h).length_le
  rw [List.length_drop] at h1
  have h2 : 0 < dom.length := List.length_pos.mpr hdom
  omega

theorem domainScan_sound (text dom : Str) :
    ∀ fuel s p, domainScan text dom s fuel = some p →
      s ≤ p ∧ occursOkAt text dom p = true := by
  intro fuel
  induction fuel with
  | zero =>
    intro s p h
    exact absurd h (by simp [domainScan])
  | succ n ih =>
    intro s p h
    rw [domainScan] at h
    cases hf : findFrom text dom s with
    | none =>
      rw [hf] at h
      exact absurd h (by simp)
    | some absStart =>
      rw [hf] at h
      dsimp only at h
      obtain ⟨hs, hocc, _⟩ := findFrom_some_spec text dom s absStart hf
      by_cases hb : (beforeOkAt text absStart && afterOkAt text dom absStart) = true
      · rw [if_pos hb] at h
        injection h with h
        subst h
        rw [Bool.and_eq_true] at hb
        refine ⟨hs, ?_⟩
        simp [occursOkAt, occursAt, hocc, hb.1, hb.2]
      · rw [if_neg hb] at h
        obtain ⟨h1, h2⟩ := ih _ p h
        exact ⟨by omega, h2⟩

theorem domainScan_complete (text dom : Str) (hdom : dom ≠ [])
    (hno : ∀ i j, occursAt text dom i = true → occursAt text dom j = true →
      i < j → i + dom.length ≤ j) :
    ∀ fuel s, text.length + 1 ≤ s + fuel →
      ∀ i, s ≤ i → occursOkAt text dom i = true →
      ∃ p, domainScan text dom s fuel = some p := by
  intro fuel
  induction fuel with
  | zero =>
    intro s hle i hsi hok
    exfalso
    unfold occursOkAt at hok
    rw [Bool.and_eq_true, Bool.and_eq_true] at hok
    have hb := occursAt_bound hdom hok.1.1
    have hdl : 0 < dom.length := List.length_pos.mpr hdom
    omega
  | succ n ih =>
    intro s hle i hsi hok
    have hok2 := hok
    unfold occursOkAt at hok2
    rw [Bool.and_eq_true, Bool.and_eq_true] at hok2
    have hbound := occursAt_bound hdom hok2.1.1
    have hdl : 0 < dom.length := List.length_pos.mpr hdom
    rw [domainScan]
    cases hf : findFrom text dom s with
    | none =>
      exfalso
      have hnone := findFrom_none_spec text dom s hf i hsi (by omega)
      have := hok2.1.1
      unfold occursAt at this
      rw [hnone] at this
      cases this
    | some absStart =>
      dsimp only
      obtain ⟨hs, hoccA, hmin⟩ := findFrom_some_spec text dom s absStart hf
      by_cases hb : (beforeOkAt text absStart && afterOkAt text dom absStart) = true
      · rw [if_pos hb]
        exact ⟨absStart, rfl⟩
      · rw [if_neg hb]
        have hAi : absStart ≤ i := by
          by_contra hlt
          push_neg at hlt
          have hfalse := hmin i hsi hlt
          have := hok2.1.1
          unfold occursAt at this
          rw [hfalse] at this
          cases this
        have hne : absStart ≠ i := by
          intro he
          subst he
          exact hb (by rw [Bool.and_eq_true]; exact ⟨hok2.1.2, hok2.2⟩)
        have hskip : absStart + dom.length ≤ i :=
          hno absStart i hoccA hok2.1.1 (by omega)
        exact ih (absStart + dom.length) (by omega) i (by omega) hok

/-- **C4** (amended).  For a non-empty domain whose occurrences in the
target never overlap, `domain_in_text` reports a match exactly when the
target contains an occurrence of the domain whose neighbouring characters
are each absent or neither ASCII alphanumeric nor `-`.  (The original
claim asserted this equivalence unconditionally; the scan resumes only
after the end of a failed hit, so with overlapping occurrences a passing
one can be skipped — see the counterexample.) -/
theorem domain_block_boundary_matching (text dom : Str) (hdom : dom ≠ [])
    (hno : ∀ i, i < text.length → ∀ j, j < text.length →
      occursAt text dom i = true → occursAt text dom j = true →
      i < j → i + dom.length ≤ j) :
    (domainInText text [dom]).isSome = true ↔
      ∃ i, occursOkAt text dom i = true := by
  have hno2 : ∀ i j, occursAt text dom i = true → occursAt text dom j = true →
      i < j → i + dom.length ≤ j := by
    intro i j hi hj hij
    have hbi := occursAt_bound hdom hi
    have hbj := occursAt_bound hdom hj
    have hdl : 0 < dom.length := List.length_pos.mpr hdom
    exact hno i (by omega) j (by omega) hi hj hij
  constructor
  · intro h
    unfold domainInText at h
    rw [List.findSome?_cons] at h
    cases hs : domainScan text dom 0 (text.length + 1) with
    | none =>
      rw [hs] at h
      simp [List.findSome?_nil] at h
    | some p =>
      obtain ⟨_, hok⟩ := domainScan_sound text dom _ 0 p hs
      exact ⟨p, hok⟩
  · rintro ⟨i, hok⟩
    obtain ⟨p, hp⟩ := domainScan_complete text dom hdom hno2
      (text.length + 1) 0 (by omega) i (Nat.zero_le i) hok
    unfold domainInText
    rw [List.findSome?_cons, hp]
    rfl

/-- Witness for the amended C4 on `"visit evil.com now"` against
`"evil.com"`: the hypotheses hold and the scan finds the passing
occurrence at position 6. -/
theorem domain_block_boundary_matching_witness :
    (("evil.com").data ≠ ([] : Str)) ∧
    (domainInText (("visit evil.com now").data) [("evil.com").data]).isSome
      = true :=
  ⟨by decide,
    (domain_block_boundary_matching (("visit evil.com now").data)
        (("evil.com").data) (by decide) (by decide)).mpr ⟨6, by decide⟩⟩

/-- **C4, counterexample to the original claim**: with domain `"a.a"` and
target `"aa.a.a"` there is a boundary-passing occurrence (at position 3:
preceded by `.`, at the end of the buffer), yet `domain_in_text` reports
no match — the first hit, at position 1, fails its before-boundary and
the scan resumes only after its end, skipping position 3. -/
theorem domain_block_boundary_counterexample :
    occursOkAt (("aa.a.a").data) (("a.a").data) 3 = true ∧
    domainInText (("aa.a.a").data) [("a.a").data] = none := by
  decide

/- ### C5 : the PII detector's firing condition -/

/-- The complete firing condition of the PII detector on one haystack:
built-in patterns, or a configured keyword when the list is non-empty. -/
def piiFires (cfg : PluginConfig) (text : Str) : Bool :=
  piiBuiltin cfg text || (!cfg.piiKeywords.isEmpty && acIsMatch cfg.piiKeywords text)

/-- The company-domain email test as the specification words it, with the
match and the configured domain compared case-insensitively.  (Second
definition, written from the spec for comparison: the source lowers only
the match, `containsNonCompanyPii`.) -/
def containsNonCompanyPiiSpec (cfg : PluginConfig) (text : Str) : Bool :=
  (emailFindIter text).any fun m =>
    !(('@' :: asciiLower cfg.companyDomain).isSuffixOf (asciiLower m))

theorem piiFires_eq_false {cfg : PluginConfig} {text : Str}
    (h1 : ¬piiBuiltin cfg text = true)
    (h2 : ¬(cfg.piiKeywords ≠ [] ∧ acIsMatch cfg.piiKeywords text = true)) :
    piiFires cfg text = false := by
  unfold piiFires
  rw [Bool.eq_false_iff]
  intro hc
  rw [Bool.or_eq_true] at hc
  rcases hc with hc | hc
  · exact h1 hc
  · rw [Bool.and_eq_true] at hc
    apply h2
    refine ⟨?_, hc.2⟩
    intro he
    rw [he] at hc
    simp at hc

theorem piiFires_of_builtin {cfg : PluginConfig} {text : Str}
    (h1 : piiBuiltin cfg text = true) : piiFires cfg text = true := by
  unfold piiFires
  rw [h1, Bool.true_or]

theorem piiFires_of_keyword {cfg : PluginConfig} {text : Str}
    (h2 : cfg.piiKeywords ≠ [] ∧ acIsMatch cfg.piiKeywords text = true) :
    piiFires cfg text = true := by
  unfold piiFires
  have hne : cfg.piiKeywords.isEmpty = false := by
    cases hk : cfg.piiKeywords with
    | nil => exact absurd hk h2.1
    | cons a l => rfl
  rw [hne, h2.2]
  rw [Bool.or_eq_true]
  exact Or.inr rfl

theorem piiEvalStrings_isSome_iff (cfg : PluginConfig) :
    ∀ ss : List Str, (∃ r, piiEvalStrings cfg ss = some r) ↔
      ∃ s ∈ ss, piiFires cfg s = true := by
  intro ss
  induction ss with
  | nil =>
    simp [piiEvalStrings]
  | cons s rest ih =>
    unfold piiEvalStrings
    by_cases h1 : piiBuiltin cfg s = true
    · rw [if_pos h1]
      constructor
      · intro _
        exact ⟨s, List.mem_cons_self s rest, piiFires_of_builtin h1⟩
      · intro _
        exact ⟨piiResponse (("input").data), rfl⟩
    · rw [if_neg h1]
      by_cases h2 : cfg.piiKeywords ≠ [] ∧ acIsMatch cfg.piiKeywords s = true
      · rw [if_pos h2]
        constructor
        · intro _
          exact ⟨s, List.mem_cons_self s rest, piiFires_of_keyword h2⟩
        · intro _
          exact ⟨piiResponse (("keyword").data), rfl⟩
      · rw [if_neg h2]
        rw [ih]
        have hfires := piiFires_eq_false h1 h2
        constructor
        · rintro ⟨t, ht, hf⟩
          exact ⟨t, List.mem_cons_of_mem s ht, hf⟩
        · rintro ⟨t, ht, hf⟩
          rcases List.mem_cons.mp ht with he | hm
          · subst he
            rw [hfires] at hf
            cases hf
          · exact ⟨t, hm, hf⟩

/-- **C5** (amended).  The PII detector returns a verdict exactly when
its firing condition holds on the flattened full text or on some input
string, and any verdict it returns blocks with reasonCode 202, reason
"Detected potential PII in content." and blockedBy "pii".  (The original
claim described the email test as comparing against the company domain
case-insensitively; the source lowers only the matched email and uses the
configured domain verbatim, so the comparison is case-sensitive in the
domain — see the counterexample.) -/
theorem pii_detector_characterization (ctx : EvalContext) (cfg : PluginConfig) :
    ((∃ r, piiEval ctx cfg = some r) ↔
      (piiFires cfg ctx.pre.fullTextLower = true ∨
        ∃ s ∈ ctx.pre.strings, piiFires cfg s = true)) ∧
    ∀ r, piiEval ctx cfg = some r →
      r.blockAction = true ∧ r.reasonCode = some 202 ∧
        r.reason = some (("Detected potential PII in content.").data) ∧
        r.blockedBy = some (("pii").data) := by
  constructor
  · unfold piiEval
    by_cases h1 : piiBuiltin cfg ctx.pre.fullTextLower = true
    · rw [if_pos h1]
      constructor
      · intro _
        exact Or.inl (piiFires_of_builtin h1)
      · intro _
        exact ⟨_, rfl⟩
    · rw [if_neg h1]
      by_cases h2 : cfg.piiKeywords ≠ [] ∧
          acIsMatch cfg.piiKeywords ctx.pre.fullTextLower = true
      · rw [if_pos h2]
        constructor
        · intro _
          exact Or.inl (piiFires_of_keyword h2)
        · intro _
          exact ⟨_, rfl⟩
      · rw [if_neg h2]
        rw [piiEvalStrings_isSome_iff]
        rw [piiFires_eq_false h1 h2]
        simp
  · intro r h
    obtain ⟨code, rfl⟩ := piiEval_some h
    exact ⟨rfl, rfl, rfl, rfl⟩

/-- Configuration with an upper-case company domain, for the C5
counterexample. -/
def cexPiiCfg : PluginConfig :=
  ⟨[], [], [], ("YourCompany.com").data, []⟩

/-- **C5, counterexample to the original claim**: with configured company
domain "YourCompany.com", the company address "bob@yourcompany.com" is
counted as non-company PII by the source (the lowered match cannot end in
the raw mixed-case domain pattern) and the detector blocks, while under
the claim's case-insensitive comparison no email fires — and the IBAN and
phone patterns do not match this haystack either. -/
theorem pii_company_domain_counterexample :
    containsNonCompanyPii cexPiiCfg (("bob@yourcompany.com").data) = true ∧
    containsNonCompanyPiiSpec cexPiiCfg (("bob@yourcompany.com").data) = false ∧
    ibanIsMatch (("bob@yourcompany.com").data) = false ∧
    phoneIsMatch (("bob@yourcompany.com").data) = false ∧
    piiEval ⟨⟨("bob@yourcompany.com").data, [], []⟩, 0⟩ cexPiiCfg =
      some (piiResponse (("builtin").data)) :=
  ⟨by decide, by decide, by decide, by decide, rfl⟩

/- ### C9 : the rendered external-HTTP body -/

theorem replaceAll_skip {pat r a b : Str} (hpat : pat ≠ [])
    (hclean : cleanSplit pat a) (hno : noOccur pat a) :
    replaceAll (a ++ b) pat r = a ++ replaceAll b pat r := by
  rw [replaceAll_append_of_cleanSplit pat r hpat a.length a b (le_refl _) hclean]
  rw [replaceAll_id_of_noOccur pat r hpat a hno]

theorem replaceAll_skip_noDollar {pat r a b : Str}
    (hh : pat.head? = some '$') (ha : '$' ∉ a) :
    replaceAll (a ++ b) pat r = a ++ replaceAll b pat r := by
  have hpat : pat ≠ [] := by
    intro he
    rw [he] at hh
    exact Option.noConfusion hh
  exact replaceAll_skip hpat (cleanSplit_of_head_notMem hh ha)
    (noOccur_of_head_notMem hh ha)

/-- The literal text of the default template before its first
placeholder. -/
def tplA : Str := ("\x7b\n  \"userMessage\": \"").data

/-- The literal text between the userMessage and toolName placeholders. -/
def tplB : Str := ("\",\n  \"toolName\": \"").data

/-- The literal text between the toolName and inputJson placeholders. -/
def tplC : Str := ("\",\n  \"input\": ").data

/-- The literal text after the last placeholder. -/
def tplD : Str := ("\n\x7d").data

/-- The default template up to (excluding) its `inputJson` placeholder. -/
def tplPre : Str :=
  ("\x7b\n  \"userMessage\": \"${userMessage}\",\n  \"toolName\": \"${toolName}\",\n  \"input\": ").data

/-- The default template between the `userMessage` and `inputJson`
placeholders. -/
def tplMid : Str := ("\",\n  \"toolName\": \"${toolName}\",\n  \"input\": ").data

theorem renderBody_default_shape (um tn ij umj tnj : Str)
    (h1 : '$' ∉ um) (h2 : '$' ∉ tn) (h3 : '$' ∉ ij) :
    replaceAll (replaceAll (replaceAll (replaceAll (replaceAll defaultTemplate
            (("${inputJson}").data) ij)
          (("${userMessageJson}").data) umj)
        (("${toolNameJson}").data) tnj)
      (("${userMessage}").data) um)
      (("${toolName}").data) tn =
    tplA ++ (um ++ (tplB ++ (tn ++ (tplC ++ (ij ++ tplD))))) := by
  have hd1 : defaultTemplate = tplPre ++ ((("${inputJson}").data) ++ tplD) := by
    decide
  have hs1 : replaceAll defaultTemplate (("${inputJson}").data) ij
      = tplPre ++ (ij ++ tplD) := by
    rw [hd1, replaceAll_skip (by decide) (by decide) (by decide),
      replaceAll_head_occurrence _ _ _ (by decide),
      replaceAll_id_of_noOccur _ _ (by decide) tplD (by decide)]
  have hs2 : replaceAll (tplPre ++ (ij ++ tplD))
      (("${userMessageJson}").data) umj = tplPre ++ (ij ++ tplD) := by
    rw [replaceAll_skip (by decide) (by decide) (by decide),
      replaceAll_skip_noDollar (by decide) h3,
      replaceAll_id_of_noOccur _ _ (by decide) tplD (by decide)]
  have hs3 : replaceAll (tplPre ++ (ij ++ tplD))
      (("${toolNameJson}").data) tnj = tplPre ++ (ij ++ tplD) := by
    rw [replaceAll_skip (by decide) (by decide) (by decide),
      replaceAll_skip_noDollar (by decide) h3,
      replaceAll_id_of_noOccur _ _ (by decide) tplD (by decide)]
  have hd2 : tplPre = tplA ++ ((("${userMessage}").data) ++ tplMid) := by
    decide
  have hs4 : replaceAll (tplPre ++ (ij ++ tplD))
      (("${userMessage}").data) um
      = tplA ++ (um ++ (tplMid ++ (ij ++ tplD))) := by
    rw [hd2, List.append_assoc, List.append_assoc,
      replaceAll_skip (by decide) (by decide) (by decide),
      replaceAll_head_occurrence _ _ _ (by decide),
      replaceAll_skip (by decide) (by decide) (by decide),
      replaceAll_skip_noDollar (by decide) h3,
      replaceAll_id_of_noOccur _ _ (by decide) tplD (by decide)]
  have hd3 : tplMid = tplB ++ ((("${toolName}").data) ++ tplC) := by
    decide
  have hs5 : replaceAll (tplA ++ (um ++ (tplMid ++ (ij ++ tplD))))
      (("${toolName}").data) tn
      = tplA ++ (um ++ (tplB ++ (tn ++ (tplC ++ (ij ++ tplD))))) := by
    rw [hd3, List.append_assoc, List.append_assoc,
      replaceAll_skip (by decide) (by decide) (by decide),
      replaceAll_skip_noDollar (by decide) h1,
      replaceAll_skip (by decide) (by decide) (by decide),
      replaceAll_head_occurrence _ _ _ (by decide),
      replaceAll_skip (by decide) (by decide) (by decide),
      replaceAll_skip_noDollar (by decide) h3,
      replaceAll_id_of_noOccur _ _ (by decide) tplD (by decide)]
  rw [hs1, hs2, hs3, hs4, hs5]

/-- **C9** (amended).  Surrounding `escape_json_string(s)` with quotes and
parsing it as a JSON string literal recovers `s`, for every `s`; and the
body rendered from the default template is the template's four literal
segments with the escaped user message, the escaped tool name and the
serialized input object substituted — provided none of the three
substituted texts contains `$`.  (The original claim asserted the shape
unconditionally; substitution is textual and sequential, so a `${toolName}`
placeholder arriving inside the user message is rewritten by the later
step and the rendered body no longer reflects the request's fields — see
the counterexample.) -/
theorem external_body_rendering (d : ExternalHttpDefinition)
    (req : AnalyzeRequest) (umRaw tnRaw : Str)
    (hd : d.requestTemplate = none)
    (hum : req.userMessage = some umRaw)
    (htn : req.toolName = some tnRaw)
    (h1 : '$' ∉ escapeJsonString umRaw)
    (h2 : '$' ∉ escapeJsonString tnRaw)
    (h3 : '$' ∉ (Json.obj req.inputValues).serialize) :
    (∀ s, parseJsonStringLit ('"' :: (escapeJsonString s ++ ['"'])) = some s) ∧
    renderBody d req =
      tplA ++ (escapeJsonString umRaw ++ (tplB ++ (escapeJsonString tnRaw ++
        (tplC ++ ((Json.obj req.inputValues).serialize ++ tplD))))) := by
  refine ⟨fun s => escapeJson_roundTrip s, ?_⟩
  unfold renderBody
  rw [hd, hum, htn]
  simp only [Option.getD_some, Option.getD_none]
  exact renderBody_default_shape (escapeJsonString umRaw)
    (escapeJsonString tnRaw) ((Json.obj req.inputValues).serialize)
    ('"' :: escapeJsonString umRaw ++ ['"'])
    ('"' :: escapeJsonString tnRaw ++ ['"']) h1 h2 h3

/-- An external-HTTP definition with no custom template, for the C9
witness and counterexample. -/
def extBodyDef : ExternalHttpDefinition :=
  ⟨("guard").data, ("http://guard.local/check").data, none, 1000, none,
    ("block").data, 701, none, true, false⟩

/-- A request whose user message and tool name need escaping, for the C9
witness. -/
def extBodyReq : AnalyzeRequest :=
  ⟨some (("say \"hi\"\n").data), some (("Send\\Email").data),
    [(("to").data, Json.str (("bob@x.com").data))]⟩

/-- Witness for the amended C9 on a request whose user message carries a
quote and a newline and whose tool name carries a backslash. -/
theorem external_body_rendering_witness :
    (∀ s, parseJsonStringLit ('"' :: (escapeJsonString s ++ ['"'])) = some s) ∧
    renderBody extBodyDef extBodyReq =
      tplA ++ (escapeJsonString (("say \"hi\"\n").data) ++ (tplB ++
        (escapeJsonString (("Send\\Email").data) ++ (tplC ++
          ((Json.obj extBodyReq.inputValues).serialize ++ tplD))))) :=
  external_body_rendering extBodyDef extBodyReq _ _ rfl rfl rfl
    (by decide) (by decide) (by decide)

/-- A request whose user message is itself the text `${toolName}`, and a
benign request, for the C9 counterexample. -/
def extInjReq1 : AnalyzeRequest :=
  ⟨some (("${toolName}").data), some (("x").data), []⟩

/-- See `extInjReq1`. -/
def extInjReq2 : AnalyzeRequest :=
  ⟨some (("x").data), some (("x").data), []⟩

/-- **C9, counterexample to the original claim**: two requests with
different user messages render to the same body under the default
template — the message `${toolName}` is substituted verbatim and then
rewritten by the later tool-name substitution — so the rendered
userMessage field cannot always equal the request's user message. -/
theorem external_body_injection_counterexample :
    renderBody extBodyDef extInjReq1 = renderBody extBodyDef extInjReq2 ∧
    extInjReq1.userMessage ≠ extInjReq2.userMessage := by
  decide

end Sentra
